import Mathlib

/-!
# Verification development for `events.go`

A shallow embedding of the event server: the ingestion pass that `main` runs on
start-up, the two query handlers `sortbytitle` and `sortbydate`, the table
declaration of `CreateTable`, and a model of the key-value/range store they
talk to.

* The decoded feed body (`result`, a `map[string]interface{}`) is an input of
  the model; `http.Get` and `json.Unmarshal` are not modelled.
* The store client (`dynamo`) is a parameter of every function that uses it, so
  the statements about `main`, `PutItem` and the handlers hold for every
  behaviour of the store, failures included.
* `localDynamo` is a concrete store, used where a statement is about what the
  table holds and what a query answers.
-/

namespace Wakelet

/-! ## Dynamic values of Go (`interface{}`) after `json.Unmarshal` -/

/-- Dynamic value stored in an `interface{}` by `json.Unmarshal`: `nil`, `bool`,
`float64` (kept as its bit pattern), `string`, `[]interface{}` and
`map[string]interface{}` (an association list, read from the front). -/
inductive Value where
  | nil : Value
  | bool (b : Bool) : Value
  | float64 (bits : Nat) : Value
  | str (s : String) : Value
  | slice (xs : List Value) : Value
  | map (kvs : List (String × Value)) : Value

/-- Dynamic types named by the type assertions of `main`. -/
inductive GoType where
  | string
  | sliceOfInterface
  | mapStringInterface
  deriving DecidableEq, Repr

/-- Map index expression `m[k]` on a `map[string]interface{}`: the value stored
under `k`, or the `nil` interface when the key is absent. -/
def index (m : List (String × Value)) (k : String) : Value :=
  (m.lookup k).getD Value.nil

/-- Map index expression `m[k]` on a `map[string]string`: the empty string when
the key is absent. -/
def indexString (m : List (String × String)) (k : String) : String :=
  (m.lookup k).getD ""

/-! ## Data model -/

/-- The `Event` struct (events.go lines 54-58). -/
structure Event where
  id : String
  title : String
  date : String
  deriving DecidableEq, Repr

/-- The constant `TABLE_NAME`. -/
def TABLE_NAME : String := "events"

/-- An item of the store, `map[string]*dynamodb.AttributeValue`; the program
only ever writes string (`S`) attributes. -/
abbrev Item := List (String × String)

/-! ## Requests of the store client -/

structure AttributeDefinition where
  attributeName : String
  attributeType : String
  deriving DecidableEq, Repr

structure KeySchemaElement where
  attributeName : String
  keyType : String
  deriving DecidableEq, Repr

structure LocalSecondaryIndex where
  indexName : String
  keySchema : List KeySchemaElement
  projectionType : String
  deriving DecidableEq, Repr

structure CreateTableInput where
  attributeDefinitions : List AttributeDefinition
  keySchema : List KeySchemaElement
  localSecondaryIndexes : List LocalSecondaryIndex
  readCapacityUnits : Nat
  writeCapacityUnits : Nat
  tableName : String
  deriving DecidableEq, Repr

structure PutItemInput where
  item : Item
  tableName : String
  deriving DecidableEq, Repr

/-- The key condition `name = placeholder` of a query, e.g. `id = :E`. -/
structure KeyCondition where
  attributeName : String
  placeholder : String
  deriving DecidableEq, Repr

structure QueryInput where
  tableName : String
  indexName : Option String
  expressionAttributeValues : List (String × String)
  keyConditionExpression : KeyCondition
  scanIndexForward : Bool
  deriving DecidableEq, Repr

/-- The `*dynamodb.QueryOutput` a query hands back; the client returns the
output struct also when it returns an error, with no items in it. -/
structure QueryOutput where
  items : List Item
  deriving DecidableEq, Repr

/-- The store client `dynamo` over a store state `σ`. Each call returns its
result together with the error, `none` standing for a `nil` error. -/
structure Dynamo (σ : Type) where
  createTable : σ → CreateTableInput → σ × Option String
  putItem : σ → PutItemInput → σ × Option String
  query : σ → QueryInput → QueryOutput × Option String

/-- A call of the `log` package: `log.Println(text)` prints the text as it is,
`log.Printf(format)` takes its argument as a format string and prints the
result of formatting it with no operands. -/
inductive LogLine where
  | println (text : String)
  | printf (format : String)
  deriving DecidableEq, Repr

/-- What the process can observe and change: the store behind `dynamo`, the
calls made to `log`, and (as a trace) the arguments of the calls of `PutItem`
made so far, oldest first. -/
structure World (σ : Type) where
  store : σ
  log : List LogLine
  putCalls : List Event

/-- The statement `if err != nil { log.Println(err.Error()) }` of `PutItem` and
of the handlers. -/
def logError {σ : Type} (w : World σ) (err : Option String) : World σ :=
  match err with
  | some e => { w with log := w.log ++ [LogLine.println e] }
  | none => w

/-! ## `CreateTable` and `PutItem` -/

/-- The request built by `CreateTable` (events.go lines 94-142). -/
def createTableInput : CreateTableInput :=
  { attributeDefinitions :=
      [ { attributeName := "id", attributeType := "S" },
        { attributeName := "title", attributeType := "S" },
        { attributeName := "date", attributeType := "S" } ]
    keySchema :=
      [ { attributeName := "id", keyType := "HASH" },
        { attributeName := "title", keyType := "RANGE" } ]
    localSecondaryIndexes :=
      [ { indexName := "date"
          keySchema :=
            [ { attributeName := "id", keyType := "HASH" },
              { attributeName := "date", keyType := "RANGE" } ]
          projectionType := "ALL" } ]
    readCapacityUnits := 5
    writeCapacityUnits := 5
    tableName := TABLE_NAME }

/-- `CreateTable` (events.go lines 93-147): send the request, pass the error
text to `log.Printf` as the format string if there is an error, return the
error. -/
def CreateTable {σ : Type} (dynamo : Dynamo σ) (w : World σ) : World σ × Option String :=
  let r := dynamo.createTable w.store createTableInput
  match r.2 with
  | some e => ({ w with store := r.1, log := w.log ++ [LogLine.printf e] }, r.2)
  | none => ({ w with store := r.1 }, r.2)

/-- The item `PutItem` builds from an event (events.go lines 157-167). -/
def itemOf (event : Event) : Item :=
  [("id", event.id), ("title", event.title), ("date", event.date)]

/-- `PutItem` (events.go lines 152-174): send one put request for the event,
log the error if there is one, return the error. -/
def PutItem {σ : Type} (dynamo : Dynamo σ) (w : World σ) (event : Event) :
    World σ × Option String :=
  let r := dynamo.putItem w.store { item := itemOf event, tableName := TABLE_NAME }
  (logError { w with store := r.1, putCalls := w.putCalls ++ [event] } r.2, r.2)

/-! ## The ingestion pass of `main` -/

/-- How a run of the ingestion pass ends: it runs to the end of the loop, or a
type assertion `x.(T)` fails and the process dies with a run-time panic. -/
inductive Outcome where
  | completed
  | panicked (asserted : GoType)
  deriving DecidableEq, Repr

/-- The inner loop of `main` (events.go lines 263-271) over the geometry
entries of one event. `title` is still an `interface{}` here; it is asserted
to be a string for every entry, before the date is. -/
def geoLoop {σ : Type} (dynamo : Dynamo σ) (id : String) (title : Value) :
    List Value → World σ → World σ × Outcome
  | [], w => (w, Outcome.completed)
  | key :: rest, w =>
    match key with
    | Value.map k =>
      match title with
      | Value.str t =>
        match index k "date" with
        | Value.str d =>
          geoLoop dynamo id title rest (PutItem dynamo w { id := id, title := t, date := d }).1
        | _ => (w, Outcome.panicked GoType.string)
      | _ => (w, Outcome.panicked GoType.string)
    | _ => (w, Outcome.panicked GoType.mapStringInterface)

/-- The outer loop of `main` (events.go lines 260-272) over the events. -/
def eventLoop {σ : Type} (dynamo : Dynamo σ) (id : String) :
    List Value → World σ → World σ × Outcome
  | [], w => (w, Outcome.completed)
  | value :: rest, w =>
    match value with
    | Value.map v =>
      match index v "geometry" with
      | Value.slice geo =>
        match geoLoop dynamo id (index v "title") geo w with
        | (w1, Outcome.completed) => eventLoop dynamo id rest w1
        | (w1, Outcome.panicked a) => (w1, Outcome.panicked a)
      | _ => (w, Outcome.panicked GoType.sliceOfInterface)
    | _ => (w, Outcome.panicked GoType.mapStringInterface)

/-- The ingestion pass of `main` (events.go lines 257-272) on the decoded feed
body `result`. -/
def ingest {σ : Type} (dynamo : Dynamo σ) (result : List (String × Value)) (w : World σ) :
    World σ × Outcome :=
  match index result "events" with
  | Value.slice events =>
    match index result "title" with
    | Value.str id => eventLoop dynamo id events w
    | _ => (w, Outcome.panicked GoType.string)
  | _ => (w, Outcome.panicked GoType.sliceOfInterface)

/-- `main` up to the point where the routes are registered (events.go lines
247-272): create the table, ignoring the error, then ingest the feed body. -/
def main {σ : Type} (dynamo : Dynamo σ) (result : List (String × Value)) (w : World σ) :
    World σ × Outcome :=
  ingest dynamo result (CreateTable dynamo w).1

/-! ## The query handlers -/

/-- The part of an `http.ResponseWriter` the handlers touch: the header map,
the status (set to 200 by the first `Write` when `WriteHeader` was not called)
and the chunks passed to `Write`, oldest first. The response body is the
concatenation of the chunks. -/
structure ResponseWriter where
  header : List (String × String)
  status : Option Nat
  body : List String
  deriving DecidableEq, Repr

/-- A response writer nothing was written to yet. -/
def ResponseWriter.fresh : ResponseWriter :=
  { header := [], status := none, body := [] }

/-- The call `w.Header().Set(k, v)`. -/
def ResponseWriter.setHeader (w : ResponseWriter) (k v : String) : ResponseWriter :=
  { w with header := (k, v) :: w.header.filter (fun kv => kv.1 != k) }

/-- The call `w.Write(chunk)`. -/
def ResponseWriter.write (w : ResponseWriter) (chunk : String) : ResponseWriter :=
  { w with status := some (w.status.getD 200), body := w.body ++ [chunk] }

/-- The call `dynamodbattribute.UnmarshalListOfMaps(items, &m)` into a
`[]map[string]string`, for items that hold string attributes only. -/
def unmarshalListOfMaps (items : List Item) : List (List (String × String)) :=
  items

/-- The line a handler writes for one row (events.go lines 209 and 240). -/
def rowLine (val : List (String × String)) : String :=
  "title :- " ++ indexString val "title" ++ " \t date :-" ++ indexString val "date" ++ "\n"

/-- The header line of `sortbytitle` (events.go line 207). -/
def titleHeaderLine : String := "Events ordered in Ascending by title name \n"

/-- The header line of `sortbydate` (events.go line 238). -/
def dateHeaderLine : String := "Events ordered in Ascending by date time \n"

/-- The query `sortbytitle` issues (events.go lines 179-188). -/
def titleQueryInput : QueryInput :=
  { tableName := "events"
    indexName := none
    expressionAttributeValues := [(":E", "EONET Events")]
    keyConditionExpression := { attributeName := "id", placeholder := ":E" }
    scanIndexForward := true }

/-- The query `sortbydate` issues (events.go lines 219-229). -/
def dateQueryInput : QueryInput :=
  { tableName := "events"
    indexName := some "date"
    expressionAttributeValues := [(":E", "EONET Events")]
    keyConditionExpression := { attributeName := "id", placeholder := ":E" }
    scanIndexForward := true }

/-- The handler `sortbytitle` (events.go lines 177-213): query the table on the
grouping key, log the error if there is one, decode the items, set the content
type, write the header line and then one line per decoded row. -/
def sortbytitle {σ : Type} (dynamo : Dynamo σ) (wld : World σ) (w : ResponseWriter) :
    World σ × ResponseWriter :=
  let input := titleQueryInput
  let r := dynamo.query wld.store input
  let wld1 := logError wld r.2
  let m := unmarshalListOfMaps r.1.items
  let w1 := w.setHeader "Content-Type" "application/json"
  let w2 := w1.write titleHeaderLine
  (wld1, m.foldl (fun acc val => acc.write (rowLine val)) w2)

/-- The handler `sortbydate` (events.go lines 216-244): as `sortbytitle`, on
the secondary index `date` and with its own header line. -/
def sortbydate {σ : Type} (dynamo : Dynamo σ) (wld : World σ) (w : ResponseWriter) :
    World σ × ResponseWriter :=
  let input := dateQueryInput
  let r := dynamo.query wld.store input
  let wld1 := logError wld r.2
  let m := unmarshalListOfMaps r.1.items
  let w1 := w.setHeader "Content-Type" "application/json"
  let w2 := w1.write dateHeaderLine
  (wld1, m.foldl (fun acc val => acc.write (rowLine val)) w2)

/-- The shape the two handlers share, with the query input and the header line
left open; used to reason about both handlers at once. -/
def renderQuery {σ : Type} (dynamo : Dynamo σ) (input : QueryInput) (headerLine : String)
    (wld : World σ) (w : ResponseWriter) : World σ × ResponseWriter :=
  let r := dynamo.query wld.store input
  let m := unmarshalListOfMaps r.1.items
  let w1 := (w.setHeader "Content-Type" "application/json").write headerLine
  (logError wld r.2, m.foldl (fun acc val => acc.write (rowLine val)) w1)

/-! ## A concrete store -/

/-- Modelled from the spec: the state of a table of the store. The store is a
separate service that the repository only calls; its behaviour is missing from
the source. A table has the key schema and the secondary indexes it was
declared with ("a composite primary key ... plus one secondary ordering
index"), and holds items. -/
structure Table where
  name : String
  keySchema : List KeySchemaElement
  localSecondaryIndexes : List LocalSecondaryIndex
  items : List Item
  deriving DecidableEq, Repr

/-- Modelled from the spec: how the store, missing from the source, reads a key
schema; the name of the key attribute of the given type, `HASH` for the
grouping key and `RANGE` for the ordering attribute. -/
def keyAttr (ks : List KeySchemaElement) (keyType : String) : Option String :=
  (ks.find? (fun e => e.keyType == keyType)).map (fun e => e.attributeName)

/-- Modelled from the spec: the composite key by which the store, missing from
the source, identifies an item ("the composite of `id` + one ordering
attribute"); the item's value for each attribute of the key schema in turn. -/
def primaryKey (ks : List KeySchemaElement) (item : Item) : List (Option String) :=
  ks.map (fun e => item.lookup e.attributeName)

/-- Modelled from the spec: the store's check, missing from the source, that an
item carries every attribute of a key schema. -/
def hasKey (ks : List KeySchemaElement) (item : Item) : Bool :=
  (primaryKey ks item).all Option.isSome

/-- Modelled from the spec: the effect of the store's put operation, missing
from the source, on the items of a table; `put_row` "writes one row
unconditionally (no conditional-write, no existence check); overwrites any row
with the same composite key". -/
def upsert (ks : List KeySchemaElement) : List Item → Item → List Item
  | [], item => [item]
  | x :: xs, item =>
    if primaryKey ks x = primaryKey ks item then item :: xs else x :: upsert ks xs item

/-- Modelled from the spec: the value by which the store, missing from the
source, orders an item under a key schema, that of the ordering attribute. -/
def rangeValue (ks : List KeySchemaElement) (item : Item) : String :=
  match keyAttr ks "RANGE" with
  | some a => indexString item a
  | none => ""

/-- Modelled from the spec: the order in which the store, missing from the
source, returns rows, "ascending order of the chosen attribute". String values
are compared character by character; comparing code points orders strings as
comparing their UTF-8 bytes does. -/
def rangeLE (ks : List KeySchemaElement) (a b : Item) : Prop :=
  (rangeValue ks a).toList ≤ (rangeValue ks b).toList

instance rangeLE.decidable (ks : List KeySchemaElement) : DecidableRel (rangeLE ks) :=
  fun a b => inferInstanceAs (Decidable ((rangeValue ks a).toList ≤ (rangeValue ks b).toList))

instance rangeLE.isTotal (ks : List KeySchemaElement) : IsTotal Item (rangeLE ks) :=
  ⟨fun a b => le_total (rangeValue ks a).toList (rangeValue ks b).toList⟩

instance rangeLE.isTrans (ks : List KeySchemaElement) : IsTrans Item (rangeLE ks) :=
  ⟨fun _ _ _ hab hbc => le_trans hab hbc⟩

/-- Modelled from the spec: the store's table creation, missing from the
source; `ensure_table` creates the table when the store has none, and "table
already exists" is an error. -/
def localCreateTable (db : Option Table) (input : CreateTableInput) :
    Option Table × Option String :=
  match db with
  | some t => (some t, some "ResourceInUseException")
  | none =>
    (some { name := input.tableName
            keySchema := input.keySchema
            localSecondaryIndexes := input.localSecondaryIndexes
            items := [] }, none)

/-- Modelled from the spec: the store's put operation, missing from the source;
`put_row`. The write fails when the table does not exist or the item lacks a
key attribute; otherwise it replaces the item with the same composite key, or
adds the item. -/
def localPutItem (db : Option Table) (input : PutItemInput) : Option Table × Option String :=
  match db with
  | none => (none, some "ResourceNotFoundException")
  | some t =>
    if t.name != input.tableName then (some t, some "ResourceNotFoundException")
    else if !hasKey t.keySchema input.item then (some t, some "ValidationException")
    else (some { t with items := upsert t.keySchema t.items input.item }, none)

/-- Modelled from the spec: the key schema a query of the store, missing from
the source, reads; the table's own when no index is named ("the base table
ordering"), else that of the secondary index of that name. -/
def querySchema (t : Table) (indexName : Option String) : Option (List KeySchemaElement) :=
  match indexName with
  | none => some t.keySchema
  | some n => (t.localSecondaryIndexes.find? (fun i => i.indexName == n)).map (fun i => i.keySchema)

/-- Modelled from the spec: the store's query operation, missing from the
source; `query_ordered`, "a query restricted to rows matching the grouping
key, returned in ascending order of the chosen attribute, using the base table
ordering for `title` and the secondary index for `date`", descending when
`scanIndexForward` is false; all matching rows come back in one answer. "On
failure, returns an empty sequence". -/
def localQuery (db : Option Table) (input : QueryInput) : QueryOutput × Option String :=
  match db with
  | none => ({ items := [] }, some "ResourceNotFoundException")
  | some t =>
    if t.name != input.tableName then ({ items := [] }, some "ResourceNotFoundException")
    else
      match querySchema t input.indexName with
      | none => ({ items := [] }, some "ValidationException")
      | some ks =>
        match keyAttr ks "HASH",
            input.expressionAttributeValues.lookup input.keyConditionExpression.placeholder with
        | some h, some v =>
          if h != input.keyConditionExpression.attributeName then
            ({ items := [] }, some "ValidationException")
          else
            let rows := (t.items.filter (fun item => hasKey ks item && item.lookup h == some v))
            let sorted := rows.insertionSort (rangeLE ks)
            ({ items := if input.scanIndexForward then sorted else sorted.reverse }, none)
        | _, _ => ({ items := [] }, some "ValidationException")

/-- Modelled from the spec: the store behind `dynamo`, missing from the source,
holding at most the one table the program uses. -/
def localDynamo : Dynamo (Option Table) :=
  { createTable := localCreateTable
    putItem := localPutItem
    query := localQuery }

/-- The world at process start over an empty store. -/
def startWorld : World (Option Table) :=
  { store := none, log := [], putCalls := [] }

/-- The events table as `CreateTable` declares it, holding the given items. -/
def eventsTable (items : List Item) : Table :=
  { name := createTableInput.tableName
    keySchema := createTableInput.keySchema
    localSecondaryIndexes := createTableInput.localSecondaryIndexes
    items := items }

/-! ## The feed payload as the spec describes it -/

/-- The string held by a value, the empty string for any other value. -/
def Value.text : Value → String
  | Value.str s => s
  | _ => ""

/-- The elements of an array value, none for any other value. -/
def Value.elems : Value → List Value
  | Value.slice xs => xs
  | _ => []

/-- The field `k` of an object value, `nil` for any other value. -/
def Value.field (v : Value) (k : String) : Value :=
  match v with
  | Value.map kvs => index kvs k
  | _ => Value.nil

/-- Whether a value is a string. -/
def Value.isStr : Value → Bool
  | Value.str _ => true
  | _ => false

/-- Whether a value is an array. -/
def Value.isSlice : Value → Bool
  | Value.slice _ => true
  | _ => false

/-- Whether a value is an object. -/
def Value.isMap : Value → Bool
  | Value.map _ => true
  | _ => false

/-- A geometry entry is well formed: an object with a string `date`. -/
def wfGeometry (g : Value) : Bool :=
  g.isMap && (g.field "date").isStr

/-- An event is well formed: an object with a string `title` and an array
`geometry` of well-formed entries. -/
def wfEvent (e : Value) : Bool :=
  e.isMap && (e.field "title").isStr && (e.field "geometry").isSlice
    && (e.field "geometry").elems.all wfGeometry

/-- A feed payload is well formed: a top-level string `title` and an array
`events` of well-formed events. -/
def wfPayload (result : List (String × Value)) : Bool :=
  (index result "title").isStr && (index result "events").isSlice
    && (index result "events").elems.all wfEvent

/-- The rows of one event: one per geometry entry, in order, each with the
grouping key, the event's title and the entry's date. -/
def rowsOfEvent (id : String) (e : Value) : List Event :=
  (e.field "geometry").elems.map
    (fun g => { id := id, title := (e.field "title").text, date := (g.field "date").text })

/-- The flattening of a payload: the rows of each event, in feed order, under
the payload's top-level title. -/
def flatten (result : List (String × Value)) : List Event :=
  (index result "events").elems.flatMap (rowsOfEvent (index result "title").text)

/-- The sum, over the events of a payload, of the length of the event's
geometry list. -/
def geometryCount (result : List (String × Value)) : Nat :=
  ((index result "events").elems.map (fun e => (e.field "geometry").elems.length)).sum

/-- The scenario payload of the spec: `Wildfire A` seen once, `Storm B` twice. -/
def scenarioPayload : List (String × Value) :=
  [ ("title", Value.str "EONET Events"),
    ("events", Value.slice
      [ Value.map
          [ ("title", Value.str "Wildfire A"),
            ("geometry", Value.slice [Value.map [("date", Value.str "2020-01-02")]]) ],
        Value.map
          [ ("title", Value.str "Storm B"),
            ("geometry", Value.slice
              [ Value.map [("date", Value.str "2020-01-01")],
                Value.map [("date", Value.str "2020-01-03")] ]) ] ]) ]

/-- The line format the spec gives for one row, `title: <title>\tdate: <date>`. -/
def specRowLine (val : List (String × String)) : String :=
  "title: " ++ indexString val "title" ++ "\tdate: " ++ indexString val "date"

/-- A world over the concrete store holding the events table with the given
items, with an empty log and no `PutItem` call made. -/
def worldOf (items : List Item) : World (Option Table) :=
  { store := some (eventsTable items), log := [], putCalls := [] }

/-- The record of one geometry entry of an event, as the spec describes a row:
the row of the entry when the entry is an object with a string `date` and the
event's title is a string, and no row otherwise. -/
def entryRecord (id : String) (title g : Value) : Option Event :=
  if title.isStr && wfGeometry g then
    some { id := id, title := title.text, date := (g.field "date").text }
  else none

/-- The records of one event in feed order: one per geometry entry, or a
single record without a row when the event is no object or has no `geometry`
array. -/
def recordsOfEvent (id : String) (e : Value) : List (Option Event) :=
  if e.isMap && (e.field "geometry").isSlice then
    (e.field "geometry").elems.map (entryRecord id (e.field "title"))
  else [none]

/-- The records of a payload in feed order: those of its events in turn, or a
single record without a row when `events` is no array or the top-level `title`
no string. -/
def records (result : List (String × Value)) : List (Option Event) :=
  if (index result "events").isSlice && (index result "title").isStr then
    (index result "events").elems.flatMap (recordsOfEvent (index result "title").text)
  else [none]

/-- The rows of the records that come before the first record without a row;
the rows of all records when every record has one. -/
def rowsBefore (rs : List (Option Event)) : List Event :=
  (rs.takeWhile Option.isSome).reduceOption

/-- A feed body whose first event has a number as title and no geometry entry,
and whose third event has no `geometry` array. -/
def emptyGeometryPayload : List (String × Value) :=
  [ ("title", Value.str "EONET Events"),
    ("events", Value.slice
      [ Value.map [("title", Value.float64 7), ("geometry", Value.slice [])],
        Value.map
          [ ("title", Value.str "Wildfire A"),
            ("geometry", Value.slice [Value.map [("date", Value.str "2020-01-02")]]) ],
        Value.map [("title", Value.str "Storm B")] ]) ]

/-- A feed body whose first event has a number as title and one geometry
entry, and whose third event has no `geometry` array. -/
def numberTitlePayload : List (String × Value) :=
  [ ("title", Value.str "EONET Events"),
    ("events", Value.slice
      [ Value.map
          [ ("title", Value.float64 7),
            ("geometry", Value.slice [Value.map [("date", Value.str "2020-01-04")]]) ],
        Value.map
          [ ("title", Value.str "Wildfire A"),
            ("geometry", Value.slice [Value.map [("date", Value.str "2020-01-02")]]) ],
        Value.map [("title", Value.str "Storm B")] ]) ]

/-- A feed body without an `events` array. -/
def noEventsPayload : List (String × Value) :=
  [("title", Value.str "EONET Events")]

/-- A feed body whose second event has a second geometry entry without a
`date`. -/
def noDatePayload : List (String × Value) :=
  [ ("title", Value.str "EONET Events"),
    ("events", Value.slice
      [ Value.map
          [ ("title", Value.str "Wildfire A"),
            ("geometry", Value.slice [Value.map [("date", Value.str "2020-01-02")]]) ],
        Value.map
          [ ("title", Value.str "Storm B"),
            ("geometry", Value.slice
              [ Value.map [("date", Value.str "2020-01-01")],
                Value.map [("coordinates", Value.slice [])],
                Value.map [("date", Value.str "2020-01-03")] ]) ],
        Value.map
          [ ("title", Value.str "Flood C"),
            ("geometry", Value.slice [Value.map [("date", Value.str "2020-01-05")]]) ] ]) ]

/-- The items of the table a store holds, none when it holds no table. -/
def tableItems (db : Option Table) : List Item :=
  match db with
  | some t => t.items
  | none => []

/-- What a put of `item` makes of the stored item `x`: `item` when the two have
the same composite key, else `x`. -/
def overwrite (ks : List KeySchemaElement) (x item : Item) : Item :=
  if primaryKey ks x = primaryKey ks item then item else x

/-- The key schema of the secondary index `date` that `CreateTable` declares. -/
def dateIndexSchema : List KeySchemaElement :=
  [ { attributeName := "id", keyType := "HASH" },
    { attributeName := "date", keyType := "RANGE" } ]

/-- The rows of a table that a query on the grouping key `EONET Events` reads
through a key schema: those that carry the schema's key attributes and have
that id. -/
def groupRows (ks : List KeySchemaElement) (items : List Item) : List Item :=
  items.filter (fun item => hasKey ks item && item.lookup "id" == some "EONET Events")

/-- Whether the concrete store accepts the put of an event into table `t`: the
request names the table and the item carries the table's key attributes. -/
def accepted (t : Table) (event : Event) : Bool :=
  !(t.name != TABLE_NAME) && hasKey t.keySchema (itemOf event)

/-- A feed body whose top-level title is not `EONET Events`. -/
def otherTitlePayload : List (String × Value) :=
  [ ("title", Value.str "Other Feed"),
    ("events", Value.slice
      [ Value.map
          [ ("title", Value.str "Wildfire A"),
            ("geometry", Value.slice [Value.map [("date", Value.str "2020-01-02")]]) ] ]) ]

/-- A store client that answers every request with an error and never changes
state, as when the store cannot be reached. -/
def downDynamo : Dynamo Unit :=
  { createTable := fun s _ => (s, some "RequestError")
    putItem := fun s _ => (s, some "RequestError")
    query := fun _ _ => ({ items := [] }, some "RequestError") }

/-- A store client over a request counter that fails every other put request,
the first one included, and accepts the rest. -/
def flakyDynamo : Dynamo Nat :=
  { createTable := fun s _ => (s, none)
    putItem := fun s _ => (s + 1, if s % 2 = 0 then some "RequestError" else none)
    query := fun _ _ => ({ items := [] }, none) }

/-! ## Runs of `PutItem` over a list of rows -/

/-- The request `PutItem` sends for an event. -/
def putItemInput (event : Event) : PutItemInput :=
  { item := itemOf event, tableName := TABLE_NAME }

/-- Call `PutItem` on each row in turn, dropping the returned errors as `main`
does. -/
def putAll {σ : Type} (dynamo : Dynamo σ) (w : World σ) (rows : List Event) : World σ :=
  rows.foldl (fun acc event => (PutItem dynamo acc event).1) w

/-- The store after one put request per row, whether the requests succeed or
not. -/
def storeAfterPuts {σ : Type} (dynamo : Dynamo σ) (s : σ) (rows : List Event) : σ :=
  rows.foldl (fun acc event => (dynamo.putItem acc (putItemInput event)).1) s

/-- The errors of the put requests that fail when one request per row is sent,
in order. -/
def putErrors {σ : Type} (dynamo : Dynamo σ) : σ → List Event → List String
  | _, [] => []
  | s, event :: rest =>
    (dynamo.putItem s (putItemInput event)).2.toList
      ++ putErrors dynamo (dynamo.putItem s (putItemInput event)).1 rest

/-! ## Lemmas on the ingestion pass -/

theorem logError_store {σ : Type} (w : World σ) (err : Option String) :
    (logError w err).store = w.store := by
  cases err <;> rfl

theorem logError_putCalls {σ : Type} (w : World σ) (err : Option String) :
    (logError w err).putCalls = w.putCalls := by
  cases err <;> rfl

theorem logError_log {σ : Type} (w : World σ) (err : Option String) :
    (logError w err).log = w.log ++ err.toList.map LogLine.println := by
  cases err <;> simp [logError]

theorem PutItem_putCalls {σ : Type} (dynamo : Dynamo σ) (w : World σ) (event : Event) :
    (PutItem dynamo w event).1.putCalls = w.putCalls ++ [event] := by
  simp [PutItem, logError_putCalls]

theorem PutItem_store {σ : Type} (dynamo : Dynamo σ) (w : World σ) (event : Event) :
    (PutItem dynamo w event).1.store = (dynamo.putItem w.store (putItemInput event)).1 := by
  simp [PutItem, logError_store, putItemInput]

theorem PutItem_log {σ : Type} (dynamo : Dynamo σ) (w : World σ) (event : Event) :
    (PutItem dynamo w event).1.log
      = w.log ++ (dynamo.putItem w.store (putItemInput event)).2.toList.map LogLine.println := by
  simp [PutItem, logError_log, putItemInput]

theorem putAll_nil {σ : Type} (dynamo : Dynamo σ) (w : World σ) : putAll dynamo w [] = w := rfl

theorem putAll_cons {σ : Type} (dynamo : Dynamo σ) (w : World σ) (event : Event)
    (rest : List Event) :
    putAll dynamo w (event :: rest) = putAll dynamo (PutItem dynamo w event).1 rest := rfl

theorem putAll_append {σ : Type} (dynamo : Dynamo σ) (w : World σ) (xs ys : List Event) :
    putAll dynamo w (xs ++ ys) = putAll dynamo (putAll dynamo w xs) ys := by
  simp [putAll, List.foldl_append]

theorem putAll_putCalls {σ : Type} (dynamo : Dynamo σ) (rows : List Event) (w : World σ) :
    (putAll dynamo w rows).putCalls = w.putCalls ++ rows := by
  induction rows generalizing w with
  | nil => simp [putAll_nil]
  | cons event rest ih => rw [putAll_cons, ih, PutItem_putCalls]; simp

theorem putAll_store {σ : Type} (dynamo : Dynamo σ) (rows : List Event) (w : World σ) :
    (putAll dynamo w rows).store = storeAfterPuts dynamo w.store rows := by
  induction rows generalizing w with
  | nil => rfl
  | cons event rest ih => rw [putAll_cons, ih, PutItem_store]; rfl

theorem putAll_log {σ : Type} (dynamo : Dynamo σ) (rows : List Event) (w : World σ) :
    (putAll dynamo w rows).log
      = w.log ++ (putErrors dynamo w.store rows).map LogLine.println := by
  induction rows generalizing w with
  | nil => simp [putAll_nil, putErrors]
  | cons event rest ih =>
    rw [putAll_cons, ih, PutItem_log, PutItem_store]
    simp [putErrors]

/-- On well-formed geometry entries under a string title the inner loop writes
one row per entry and runs to its end. -/
theorem geoLoop_wf {σ : Type} (dynamo : Dynamo σ) (id t : String) (geo : List Value)
    (w : World σ) (h : ∀ g ∈ geo, wfGeometry g = true) :
    geoLoop dynamo id (Value.str t) geo w
      = (putAll dynamo w
          (geo.map (fun g => { id := id, title := t, date := (g.field "date").text })),
         Outcome.completed) := by
  induction geo generalizing w with
  | nil => rfl
  | cons g rest ih =>
    have hg := h g (List.mem_cons_self _ _)
    have hrest : ∀ x ∈ rest, wfGeometry x = true := fun x hx => h x (List.mem_cons_of_mem _ hx)
    cases g with
    | map k =>
      simp only [wfGeometry, Value.isMap, Value.field, Bool.true_and] at hg
      cases hd : index k "date" with
      | str d =>
        simp only [geoLoop, hd, List.map_cons, putAll_cons, Value.field, Value.text]
        exact ih _ hrest
      | nil => simp [hd, Value.isStr] at hg
      | bool b => simp [hd, Value.isStr] at hg
      | float64 b => simp [hd, Value.isStr] at hg
      | slice xs => simp [hd, Value.isStr] at hg
      | map m => simp [hd, Value.isStr] at hg
    | nil => simp [wfGeometry, Value.isMap] at hg
    | bool b => simp [wfGeometry, Value.isMap] at hg
    | float64 b => simp [wfGeometry, Value.isMap] at hg
    | str s => simp [wfGeometry, Value.isMap] at hg
    | slice xs => simp [wfGeometry, Value.isMap] at hg

theorem isStr_iff (v : Value) : v.isStr = true ↔ ∃ s, v = Value.str s := by
  cases v <;> simp [Value.isStr]

theorem isSlice_iff (v : Value) : v.isSlice = true ↔ ∃ xs, v = Value.slice xs := by
  cases v <;> simp [Value.isSlice]

theorem isMap_iff (v : Value) : v.isMap = true ↔ ∃ kvs, v = Value.map kvs := by
  cases v <;> simp [Value.isMap]

/-- A well-formed event, taken apart. -/
theorem wfEvent_iff (e : Value) :
    wfEvent e = true ↔ ∃ kvs t geo, e = Value.map kvs ∧ index kvs "title" = Value.str t
      ∧ index kvs "geometry" = Value.slice geo ∧ ∀ g ∈ geo, wfGeometry g = true := by
  constructor
  · intro h
    simp only [wfEvent, Bool.and_eq_true, isMap_iff, isStr_iff, isSlice_iff,
      List.all_eq_true] at h
    obtain ⟨⟨⟨⟨kvs, rfl⟩, t, ht⟩, geo, hgeo⟩, hall⟩ := h
    simp only [Value.field] at ht hgeo hall
    rw [hgeo] at hall
    exact ⟨kvs, t, geo, rfl, ht, hgeo, hall⟩
  · rintro ⟨kvs, t, geo, rfl, ht, hgeo, hall⟩
    simp only [wfEvent, Value.field, ht, hgeo, Value.isMap, Value.isStr, Value.isSlice,
      Value.elems, Bool.and_eq_true, List.all_eq_true, true_and]
    exact hall

/-- On well-formed events the outer loop writes the rows of each event in turn
and runs to its end. -/
theorem eventLoop_wf {σ : Type} (dynamo : Dynamo σ) (id : String) (events : List Value)
    (w : World σ) (h : ∀ e ∈ events, wfEvent e = true) :
    eventLoop dynamo id events w
      = (putAll dynamo w (events.flatMap (rowsOfEvent id)), Outcome.completed) := by
  induction events generalizing w with
  | nil => rfl
  | cons e rest ih =>
    obtain ⟨kvs, t, geo, rfl, ht, hgeo, hall⟩ := (wfEvent_iff e).1 (h e (List.mem_cons_self _ _))
    have hrest : ∀ x ∈ rest, wfEvent x = true := fun x hx => h x (List.mem_cons_of_mem _ hx)
    simp only [eventLoop, hgeo, ht, geoLoop_wf dynamo id t geo w hall, List.flatMap_cons,
      putAll_append, ih _ hrest]
    simp [rowsOfEvent, Value.field, ht, hgeo, Value.elems, Value.text]

/-- A well-formed payload, taken apart. -/
theorem wfPayload_iff (result : List (String × Value)) :
    wfPayload result = true ↔ ∃ id events, index result "title" = Value.str id
      ∧ index result "events" = Value.slice events ∧ ∀ e ∈ events, wfEvent e = true := by
  constructor
  · intro h
    simp only [wfPayload, Bool.and_eq_true, isStr_iff, isSlice_iff, List.all_eq_true] at h
    obtain ⟨⟨⟨id, hid⟩, events, hev⟩, hall⟩ := h
    rw [hev] at hall
    exact ⟨id, events, hid, hev, hall⟩
  · rintro ⟨id, events, hid, hev, hall⟩
    simp only [wfPayload, hid, hev, Value.isStr, Value.isSlice, Value.elems, Bool.and_eq_true,
      List.all_eq_true, true_and]
    exact hall

/-- On a well-formed payload the ingestion pass calls `PutItem` on the rows of
the flattening, in order, and runs to its end. -/
theorem ingest_wf {σ : Type} (dynamo : Dynamo σ) (result : List (String × Value)) (w : World σ)
    (h : wfPayload result = true) :
    ingest dynamo result w = (putAll dynamo w (flatten result), Outcome.completed) := by
  obtain ⟨id, events, hid, hev, hall⟩ := (wfPayload_iff result).1 h
  simp only [ingest, hev, hid, flatten, Value.elems, Value.text]
  exact eventLoop_wf dynamo id events w hall

theorem CreateTable_putCalls {σ : Type} (dynamo : Dynamo σ) (w : World σ) :
    (CreateTable dynamo w).1.putCalls = w.putCalls := by
  simp only [CreateTable]
  split <;> rfl

theorem length_flatten (result : List (String × Value)) :
    (flatten result).length = geometryCount result := by
  simp only [flatten, geometryCount]
  induction (index result "events").elems with
  | nil => rfl
  | cons e rest ih => simp [List.flatMap_cons, ih, rowsOfEvent]

theorem main_wf {σ : Type} (dynamo : Dynamo σ) (result : List (String × Value)) (w : World σ)
    (h : wfPayload result = true) :
    main dynamo result w
      = (putAll dynamo (CreateTable dynamo w).1 (flatten result), Outcome.completed) := by
  simp only [main, ingest_wf dynamo result _ h]

theorem mem_flatten_id (result : List (String × Value)) (row : Event)
    (h : row ∈ flatten result) : row.id = (index result "title").text := by
  simp only [flatten, List.mem_flatMap, rowsOfEvent, List.mem_map] at h
  obtain ⟨e, _, g, _, rfl⟩ := h
  rfl

/-! ## The ingestion pass on well-formed payloads -/

/-- C1: for every well-formed feed payload, `main` runs the ingestion loop to
its end and the number of `PutItem` calls it makes is the sum, over the events,
of the length of the event's geometry list. -/
theorem main_putCalls_length {σ : Type} (dynamo : Dynamo σ) (result : List (String × Value))
    (w : World σ) (h : wfPayload result = true) :
    (main dynamo result w).2 = Outcome.completed
      ∧ (main dynamo result w).1.putCalls.length
          = w.putCalls.length + geometryCount result := by
  rw [main_wf dynamo result w h]
  simp [putAll_putCalls, CreateTable_putCalls, length_flatten]

theorem main_putCalls_length_witness :
    wfPayload scenarioPayload = true
      ∧ (main localDynamo scenarioPayload startWorld).2 = Outcome.completed
      ∧ (main localDynamo scenarioPayload startWorld).1.putCalls.length
          = startWorld.putCalls.length + geometryCount scenarioPayload :=
  ⟨by decide, main_putCalls_length localDynamo scenarioPayload startWorld (by decide)⟩

/-- C2: for every well-formed feed payload, the rows `main` passes to `PutItem`
are exactly the flattening of the payload in feed order (for each event in
order and each of its geometry entries in order, one row with the payload's
top-level title as id, the event's title and the entry's date), and every such
row has the feed's top-level title as its id. -/
theorem main_putCalls_eq_flatten {σ : Type} (dynamo : Dynamo σ)
    (result : List (String × Value)) (w : World σ) (h : wfPayload result = true) :
    (main dynamo result w).1.putCalls
        = w.putCalls ++ (index result "events").elems.flatMap (fun e =>
            (e.field "geometry").elems.map (fun g =>
              { id := (index result "title").text
                title := (e.field "title").text
                date := (g.field "date").text }))
      ∧ ∀ row ∈ (main dynamo result w).1.putCalls,
          row ∈ w.putCalls ∨ Value.str row.id = index result "title" := by
  rw [main_wf dynamo result w h]
  refine ⟨by simp only [putAll_putCalls, CreateTable_putCalls, flatten]; rfl, ?_⟩
  intro row hrow
  rw [putAll_putCalls, CreateTable_putCalls, List.mem_append] at hrow
  rcases hrow with hrow | hrow
  · exact Or.inl hrow
  · right
    obtain ⟨id, _, hid, _, _⟩ := (wfPayload_iff result).1 h
    rw [mem_flatten_id result row hrow, hid]
    rfl

theorem main_putCalls_eq_flatten_witness :
    wfPayload scenarioPayload = true
      ∧ (main localDynamo scenarioPayload startWorld).1.putCalls
        = [ { id := "EONET Events", title := "Wildfire A", date := "2020-01-02" },
            { id := "EONET Events", title := "Storm B", date := "2020-01-01" },
            { id := "EONET Events", title := "Storm B", date := "2020-01-03" } ] :=
  ⟨by decide,
   (main_putCalls_eq_flatten localDynamo scenarioPayload startWorld (by decide)).1.trans
     (by decide)⟩

/-- C10: writes are best-effort. For every well-formed feed payload and every
store client, whatever put requests it fails, `main` runs the loop to its end
and calls `PutItem` on exactly the rows of the flattening, once each and in
order, as it does over any other store client; the store is the result of
those put requests alone, and the log gains exactly the errors of the failed
ones. -/
theorem main_best_effort {σ : Type} (dynamo : Dynamo σ) (result : List (String × Value))
    (w : World σ) (h : wfPayload result = true) :
    (main dynamo result w).2 = Outcome.completed
      ∧ (main dynamo result w).1.putCalls = w.putCalls ++ flatten result
      ∧ (∀ (τ : Type) (other : Dynamo τ) (v : World τ), v.putCalls = w.putCalls →
          (main other result v).1.putCalls = (main dynamo result w).1.putCalls)
      ∧ (main dynamo result w).1.store
          = storeAfterPuts dynamo (CreateTable dynamo w).1.store (flatten result)
      ∧ (main dynamo result w).1.log
          = (CreateTable dynamo w).1.log
              ++ (putErrors dynamo (CreateTable dynamo w).1.store (flatten result)).map
                  LogLine.println := by
  rw [main_wf dynamo result w h]
  refine ⟨rfl, by simp [putAll_putCalls, CreateTable_putCalls], ?_, putAll_store _ _ _,
    putAll_log _ _ _⟩
  intro τ other v hv
  rw [main_wf other result v h]
  simp [putAll_putCalls, CreateTable_putCalls, hv]

theorem main_best_effort_witness :
    wfPayload scenarioPayload = true
      ∧ (main flakyDynamo scenarioPayload { store := 0, log := [], putCalls := [] }).1.putCalls
        = [ { id := "EONET Events", title := "Wildfire A", date := "2020-01-02" },
            { id := "EONET Events", title := "Storm B", date := "2020-01-01" },
            { id := "EONET Events", title := "Storm B", date := "2020-01-03" } ]
      ∧ (main flakyDynamo scenarioPayload { store := 0, log := [], putCalls := [] }).1.log
        = [LogLine.println "RequestError", LogLine.println "RequestError"] :=
  ⟨by decide,
   (main_best_effort flakyDynamo scenarioPayload { store := 0, log := [], putCalls := [] }
      (by decide)).2.1.trans (by decide),
   (main_best_effort flakyDynamo scenarioPayload { store := 0, log := [], putCalls := [] }
      (by decide)).2.2.2.2.trans (by decide)⟩

/-! ## The query handlers -/

theorem foldl_write_body (lines : List String) (w : ResponseWriter) :
    (lines.foldl (fun acc line => acc.write line) w).body = w.body ++ lines := by
  induction lines generalizing w with
  | nil => simp
  | cons line rest ih =>
    rw [List.foldl_cons, ih]
    simp [ResponseWriter.write]

theorem foldl_write_status (lines : List String) (w : ResponseWriter) (code : Nat)
    (h : w.status = some code) :
    (lines.foldl (fun acc line => acc.write line) w).status = some code := by
  induction lines generalizing w with
  | nil => simpa using h
  | cons line rest ih =>
    simp only [List.foldl_cons]
    exact ih _ (by simp [ResponseWriter.write, h])

theorem foldl_write_rows (rows : List (List (String × String))) (w : ResponseWriter) :
    rows.foldl (fun acc val => acc.write (rowLine val)) w
      = (rows.map rowLine).foldl (fun acc line => acc.write line) w := by
  rw [List.foldl_map]

theorem renderQuery_body {σ : Type} (dynamo : Dynamo σ) (input : QueryInput)
    (headerLine : String) (wld : World σ) (w : ResponseWriter) :
    (renderQuery dynamo input headerLine wld w).2.body
      = w.body ++ headerLine :: (dynamo.query wld.store input).1.items.map rowLine := by
  simp only [renderQuery, foldl_write_rows, foldl_write_body, unmarshalListOfMaps]
  simp [ResponseWriter.write, ResponseWriter.setHeader]

theorem renderQuery_status {σ : Type} (dynamo : Dynamo σ) (input : QueryInput)
    (headerLine : String) (wld : World σ) (w : ResponseWriter) :
    (renderQuery dynamo input headerLine wld w).2.status = some (w.status.getD 200) := by
  simp only [renderQuery, foldl_write_rows]
  exact foldl_write_status _ _ _ (by simp [ResponseWriter.write, ResponseWriter.setHeader])

theorem sortbytitle_eq {σ : Type} (dynamo : Dynamo σ) (wld : World σ) (w : ResponseWriter) :
    sortbytitle dynamo wld w = renderQuery dynamo titleQueryInput titleHeaderLine wld w := rfl

theorem sortbydate_eq {σ : Type} (dynamo : Dynamo σ) (wld : World σ) (w : ResponseWriter) :
    sortbydate dynamo wld w = renderQuery dynamo dateQueryInput dateHeaderLine wld w := rfl

theorem renderQuery_world {σ : Type} (dynamo : Dynamo σ) (input : QueryInput)
    (headerLine : String) (wld : World σ) (w : ResponseWriter) :
    (renderQuery dynamo input headerLine wld w).1
      = logError wld (dynamo.query wld.store input).2 := rfl

/-- C6, as the code has it: for every list of rows the store query returns, the
body written by `sortbytitle` (and by `sortbydate`) is the handler's fixed
header line followed by exactly one line per row, in the order returned, each
line being `title :- <title> \t date :-<date>` and a newline, with that row's
title and date. -/
theorem handlers_body {σ : Type} (dynamo : Dynamo σ) (wld : World σ) (w : ResponseWriter) :
    (sortbytitle dynamo wld w).2.body
        = w.body ++ "Events ordered in Ascending by title name \n"
            :: (dynamo.query wld.store titleQueryInput).1.items.map (fun row =>
                "title :- " ++ indexString row "title" ++ " \t date :-"
                  ++ indexString row "date" ++ "\n")
      ∧ (sortbydate dynamo wld w).2.body
        = w.body ++ "Events ordered in Ascending by date time \n"
            :: (dynamo.query wld.store dateQueryInput).1.items.map (fun row =>
                "title :- " ++ indexString row "title" ++ " \t date :-"
                  ++ indexString row "date" ++ "\n") :=
  ⟨renderQuery_body dynamo titleQueryInput titleHeaderLine wld w,
   renderQuery_body dynamo dateQueryInput dateHeaderLine wld w⟩

/-- C6, as the spec has it, fails: for a table holding the one row `Storm B`
of `2020-01-01`, the body `sortbytitle` writes is its header line followed by
`title :- Storm B \t date :-2020-01-01` and a newline, which is not the header
line followed by one line `title: Storm B\tdate: 2020-01-01` per returned row,
with or without a newline; the same holds for `sortbydate`. -/
theorem spec_row_format_differs :
    (sortbytitle localDynamo
        (worldOf [[("id", "EONET Events"), ("title", "Storm B"), ("date", "2020-01-01")]])
        ResponseWriter.fresh).2.body
      = [titleHeaderLine, "title :- Storm B \t date :-2020-01-01\n"]
    ∧ (sortbytitle localDynamo
        (worldOf [[("id", "EONET Events"), ("title", "Storm B"), ("date", "2020-01-01")]])
        ResponseWriter.fresh).2.body
      ≠ titleHeaderLine :: (localDynamo.query
          (worldOf [[("id", "EONET Events"), ("title", "Storm B"), ("date", "2020-01-01")]]).store
          titleQueryInput).1.items.map specRowLine
    ∧ (sortbytitle localDynamo
        (worldOf [[("id", "EONET Events"), ("title", "Storm B"), ("date", "2020-01-01")]])
        ResponseWriter.fresh).2.body
      ≠ titleHeaderLine :: (localDynamo.query
          (worldOf [[("id", "EONET Events"), ("title", "Storm B"), ("date", "2020-01-01")]]).store
          titleQueryInput).1.items.map (fun row => specRowLine row ++ "\n")
    ∧ (sortbydate localDynamo
        (worldOf [[("id", "EONET Events"), ("title", "Storm B"), ("date", "2020-01-01")]])
        ResponseWriter.fresh).2.body
      ≠ dateHeaderLine :: (localDynamo.query
          (worldOf [[("id", "EONET Events"), ("title", "Storm B"), ("date", "2020-01-01")]]).store
          dateQueryInput).1.items.map specRowLine
    ∧ (sortbydate localDynamo
        (worldOf [[("id", "EONET Events"), ("title", "Storm B"), ("date", "2020-01-01")]])
        ResponseWriter.fresh).2.body
      ≠ dateHeaderLine :: (localDynamo.query
          (worldOf [[("id", "EONET Events"), ("title", "Storm B"), ("date", "2020-01-01")]]).store
          dateQueryInput).1.items.map (fun row => specRowLine row ++ "\n")
    ∧ specRowLine [("id", "EONET Events"), ("title", "Storm B"), ("date", "2020-01-01")]
      = "title: Storm B\tdate: 2020-01-01" := by
  decide

/-- C7: when the store query a handler issues fails, returning an error and no
items, the handler still answers: the body is the header line alone, the
status is 200, the error goes to the log and the store is left as it was; so
for `sortbytitle` and for `sortbydate`. -/
theorem handlers_on_query_failure {σ : Type} (dynamo : Dynamo σ) (wld : World σ) :
    (∀ e, dynamo.query wld.store titleQueryInput = ({ items := [] }, some e) →
        (sortbytitle dynamo wld ResponseWriter.fresh).2.body = [titleHeaderLine]
          ∧ (sortbytitle dynamo wld ResponseWriter.fresh).2.status = some 200
          ∧ (sortbytitle dynamo wld ResponseWriter.fresh).1.log
              = wld.log ++ [LogLine.println e]
          ∧ (sortbytitle dynamo wld ResponseWriter.fresh).1.store = wld.store)
      ∧ (∀ e, dynamo.query wld.store dateQueryInput = ({ items := [] }, some e) →
        (sortbydate dynamo wld ResponseWriter.fresh).2.body = [dateHeaderLine]
          ∧ (sortbydate dynamo wld ResponseWriter.fresh).2.status = some 200
          ∧ (sortbydate dynamo wld ResponseWriter.fresh).1.log
              = wld.log ++ [LogLine.println e]
          ∧ (sortbydate dynamo wld ResponseWriter.fresh).1.store = wld.store) := by
  constructor <;> intro e h
  · refine ⟨?_, renderQuery_status _ _ _ _ _, ?_, ?_⟩
    · simp [sortbytitle_eq, renderQuery_body, h, ResponseWriter.fresh]
    · simp [sortbytitle_eq, renderQuery_world, h, logError_log]
    · simp [sortbytitle_eq, renderQuery_world, logError_store]
  · refine ⟨?_, renderQuery_status _ _ _ _ _, ?_, ?_⟩
    · simp [sortbydate_eq, renderQuery_body, h, ResponseWriter.fresh]
    · simp [sortbydate_eq, renderQuery_world, h, logError_log]
    · simp [sortbydate_eq, renderQuery_world, logError_store]

theorem handlers_on_query_failure_witness :
    localQuery none titleQueryInput = ({ items := [] }, some "ResourceNotFoundException")
      ∧ (sortbytitle localDynamo startWorld ResponseWriter.fresh).2.body = [titleHeaderLine]
      ∧ (sortbytitle localDynamo startWorld ResponseWriter.fresh).2.status = some 200
      ∧ (sortbytitle localDynamo startWorld ResponseWriter.fresh).1.log
          = [LogLine.println "ResourceNotFoundException"]
      ∧ (sortbydate downDynamo { store := (), log := [], putCalls := [] }
          ResponseWriter.fresh).2.body = [dateHeaderLine]
      ∧ (sortbydate downDynamo { store := (), log := [], putCalls := [] }
          ResponseWriter.fresh).1.log = [LogLine.println "RequestError"] :=
  ⟨rfl,
   ((handlers_on_query_failure localDynamo startWorld).1 "ResourceNotFoundException" rfl).1,
   ((handlers_on_query_failure localDynamo startWorld).1 "ResourceNotFoundException" rfl).2.1,
   ((handlers_on_query_failure localDynamo startWorld).1 "ResourceNotFoundException"
      rfl).2.2.1,
   ((handlers_on_query_failure downDynamo { store := (), log := [], putCalls := [] }).2
      "RequestError" rfl).1,
   ((handlers_on_query_failure downDynamo { store := (), log := [], putCalls := [] }).2
      "RequestError" rfl).2.2.1⟩

/-! ## The ingestion pass on malformed payloads -/

theorem rowsBefore_some (row : Event) (rs : List (Option Event)) :
    rowsBefore (some row :: rs) = row :: rowsBefore rs := rfl

theorem rowsBefore_none (rs : List (Option Event)) : rowsBefore (none :: rs) = [] := rfl

theorem rowsBefore_append_of_not_mem (xs ys : List (Option Event)) (h : none ∉ xs) :
    rowsBefore (xs ++ ys) = rowsBefore xs ++ rowsBefore ys := by
  induction xs with
  | nil => rfl
  | cons x rest ih =>
    cases x with
    | none => exact absurd (List.mem_cons_self _ _) h
    | some row =>
      rw [List.cons_append, rowsBefore_some, rowsBefore_some,
        ih (fun hmem => h (List.mem_cons_of_mem _ hmem))]
      rfl

theorem rowsBefore_append_of_mem (xs ys : List (Option Event)) (h : none ∈ xs) :
    rowsBefore (xs ++ ys) = rowsBefore xs := by
  induction xs with
  | nil => simp at h
  | cons x rest ih =>
    cases x with
    | none => rfl
    | some row =>
      rw [List.cons_append, rowsBefore_some, rowsBefore_some]
      rcases List.mem_cons.1 h with h1 | h1
      · exact Option.noConfusion h1
      · rw [ih h1]

/-- The inner loop takes an entry that has a row, writing the row. -/
theorem geoLoop_cons_some {σ : Type} (dynamo : Dynamo σ) (id : String) (title g : Value)
    (rest : List Value) (w : World σ) (row : Event) (h : entryRecord id title g = some row) :
    geoLoop dynamo id title (g :: rest) w
      = geoLoop dynamo id title rest (PutItem dynamo w row).1 := by
  unfold entryRecord at h
  split at h
  · rename_i hcond
    simp only [Bool.and_eq_true, isStr_iff, wfGeometry, isMap_iff] at hcond
    obtain ⟨⟨t, rfl⟩, ⟨k, rfl⟩, d, hd⟩ := hcond
    simp only [Value.field] at hd
    simp only [Value.field, hd, Value.text, Option.some.injEq] at h
    subst h
    simp only [geoLoop, hd]
  · exact Option.noConfusion h

/-- The inner loop stops at an entry that has no row, writing nothing. -/
theorem geoLoop_cons_none {σ : Type} (dynamo : Dynamo σ) (id : String) (title g : Value)
    (rest : List Value) (w : World σ) (h : entryRecord id title g = none) :
    ∃ a, geoLoop dynamo id title (g :: rest) w = (w, Outcome.panicked a) := by
  cases g with
  | map k =>
    cases title with
    | str t =>
      cases hd : index k "date" with
      | str d =>
        simp [entryRecord, wfGeometry, Value.isMap, Value.field, hd, Value.isStr] at h
      | nil => exact ⟨_, by simp only [geoLoop, hd]; rfl⟩
      | bool b => exact ⟨_, by simp only [geoLoop, hd]; rfl⟩
      | float64 b => exact ⟨_, by simp only [geoLoop, hd]; rfl⟩
      | slice xs => exact ⟨_, by simp only [geoLoop, hd]; rfl⟩
      | map m => exact ⟨_, by simp only [geoLoop, hd]; rfl⟩
    | nil => exact ⟨_, by simp only [geoLoop]; rfl⟩
    | bool b => exact ⟨_, by simp only [geoLoop]; rfl⟩
    | float64 b => exact ⟨_, by simp only [geoLoop]; rfl⟩
    | slice xs => exact ⟨_, by simp only [geoLoop]; rfl⟩
    | map m => exact ⟨_, by simp only [geoLoop]; rfl⟩
  | nil => exact ⟨_, by simp only [geoLoop]; rfl⟩
  | bool b => exact ⟨_, by simp only [geoLoop]; rfl⟩
  | float64 b => exact ⟨_, by simp only [geoLoop]; rfl⟩
  | str s => exact ⟨_, by simp only [geoLoop]; rfl⟩
  | slice xs => exact ⟨_, by simp only [geoLoop]; rfl⟩

/-- The inner loop writes the rows of the entries before the first entry
without a row, and runs to its end exactly when every entry has a row. -/
theorem geoLoop_records {σ : Type} (dynamo : Dynamo σ) (id : String) (title : Value)
    (geo : List Value) (w : World σ) :
    (geoLoop dynamo id title geo w).1
        = putAll dynamo w (rowsBefore (geo.map (entryRecord id title)))
      ∧ ((geoLoop dynamo id title geo w).2 = Outcome.completed
          ↔ none ∉ geo.map (entryRecord id title)) := by
  induction geo generalizing w with
  | nil => exact ⟨rfl, by simp [geoLoop]⟩
  | cons g rest ih =>
    cases h : entryRecord id title g with
    | none =>
      obtain ⟨a, ha⟩ := geoLoop_cons_none dynamo id title g rest w h
      rw [ha, List.map_cons, h, rowsBefore_none]
      exact ⟨rfl, by simp⟩
    | some row =>
      rw [geoLoop_cons_some dynamo id title g rest w row h, List.map_cons, h, rowsBefore_some,
        putAll_cons]
      refine ⟨(ih _).1, ?_⟩
      rw [(ih _).2]
      simp

/-- The outer loop stops at an event that is no object or has no `geometry`
array, writing nothing for it. -/
theorem eventLoop_no_geometry {σ : Type} (dynamo : Dynamo σ) (id : String) (bad : Value)
    (rest : List Value) (w : World σ)
    (h : (bad.isMap && (bad.field "geometry").isSlice) = false) :
    ∃ a, eventLoop dynamo id (bad :: rest) w = (w, Outcome.panicked a) := by
  cases bad with
  | map v =>
    cases hgeo : index v "geometry" with
    | slice geo => simp [Value.isMap, Value.field, hgeo, Value.isSlice] at h
    | nil => exact ⟨_, by simp only [eventLoop, hgeo]; rfl⟩
    | bool b => exact ⟨_, by simp only [eventLoop, hgeo]; rfl⟩
    | float64 b => exact ⟨_, by simp only [eventLoop, hgeo]; rfl⟩
    | str s => exact ⟨_, by simp only [eventLoop, hgeo]; rfl⟩
    | map m => exact ⟨_, by simp only [eventLoop, hgeo]; rfl⟩
  | nil => exact ⟨_, by simp only [eventLoop]; rfl⟩
  | bool b => exact ⟨_, by simp only [eventLoop]; rfl⟩
  | float64 b => exact ⟨_, by simp only [eventLoop]; rfl⟩
  | str s => exact ⟨_, by simp only [eventLoop]; rfl⟩
  | slice xs => exact ⟨_, by simp only [eventLoop]; rfl⟩

/-- The outer loop on an event that is an object with a `geometry` array: run
the inner loop on its entries, go on when that ran to its end. -/
theorem eventLoop_cons_geometry {σ : Type} (dynamo : Dynamo σ) (id : String) (e : Value)
    (rest : List Value) (w : World σ)
    (h : (e.isMap && (e.field "geometry").isSlice) = true) :
    eventLoop dynamo id (e :: rest) w
      = match geoLoop dynamo id (e.field "title") (e.field "geometry").elems w with
        | (w1, Outcome.completed) => eventLoop dynamo id rest w1
        | (w1, Outcome.panicked a) => (w1, Outcome.panicked a) := by
  simp only [Bool.and_eq_true, isMap_iff, isSlice_iff] at h
  obtain ⟨⟨v, rfl⟩, geo, hgeo⟩ := h
  simp only [Value.field] at hgeo
  simp only [eventLoop, hgeo, Value.field, Value.elems]

/-- The outer loop writes the rows of the records before the first record
without a row, and runs to its end exactly when every record has a row. -/
theorem eventLoop_records {σ : Type} (dynamo : Dynamo σ) (id : String) (events : List Value)
    (w : World σ) :
    (eventLoop dynamo id events w).1
        = putAll dynamo w (rowsBefore (events.flatMap (recordsOfEvent id)))
      ∧ ((eventLoop dynamo id events w).2 = Outcome.completed
          ↔ none ∉ events.flatMap (recordsOfEvent id)) := by
  induction events generalizing w with
  | nil => exact ⟨rfl, by simp [eventLoop]⟩
  | cons e rest ih =>
    rw [List.flatMap_cons]
    by_cases hshape : (e.isMap && (e.field "geometry").isSlice) = true
    · have hrec : recordsOfEvent id e
          = (e.field "geometry").elems.map (entryRecord id (e.field "title")) := by
        simp only [recordsOfEvent, hshape, if_true]
      obtain ⟨h1, h2⟩ :=
        geoLoop_records dynamo id (e.field "title") (e.field "geometry").elems w
      rw [eventLoop_cons_geometry dynamo id e rest w hshape, hrec]
      cases hloop : geoLoop dynamo id (e.field "title") (e.field "geometry").elems w with
      | mk w1 o =>
        rw [hloop] at h1 h2
        simp only at h1 h2
        cases o with
        | completed =>
          have hnone := h2.1 rfl
          simp only
          rw [rowsBefore_append_of_not_mem _ _ hnone, putAll_append, ← h1]
          refine ⟨(ih w1).1, ?_⟩
          rw [(ih w1).2, List.mem_append]
          simp [hnone]
        | panicked a =>
          have hnone : none ∈ (e.field "geometry").elems.map (entryRecord id (e.field "title")) := by
            by_contra hc
            exact Outcome.noConfusion (h2.2 hc)
          simp only
          rw [rowsBefore_append_of_mem _ _ hnone]
          refine ⟨h1, ?_⟩
          simp [List.mem_append, hnone]
    · have hshape2 : (e.isMap && (e.field "geometry").isSlice) = false := by
        simpa using hshape
      have hrec : recordsOfEvent id e = [none] := by
        simp only [recordsOfEvent, hshape2, Bool.false_eq_true, if_false]
      obtain ⟨a, ha⟩ := eventLoop_no_geometry dynamo id e rest w hshape2
      rw [ha, hrec]
      exact ⟨rfl, by simp⟩

/-- The ingestion pass writes the rows of the records before the first record
without a row, and runs to its end exactly when every record has a row. -/
theorem ingest_records {σ : Type} (dynamo : Dynamo σ) (result : List (String × Value))
    (w : World σ) :
    (ingest dynamo result w).1 = putAll dynamo w (rowsBefore (records result))
      ∧ ((ingest dynamo result w).2 = Outcome.completed ↔ none ∉ records result) := by
  cases hev : index result "events" with
  | slice events =>
    cases hid : index result "title" with
    | str id =>
      have hrec : records result = events.flatMap (recordsOfEvent id) := by
        simp [records, hev, hid, Value.isSlice, Value.isStr, Value.elems, Value.text]
      simp only [ingest, hev, hid, hrec]
      exact eventLoop_records dynamo id events w
    | nil => exact ⟨by simp [ingest, records, hev, hid, Value.isStr, rowsBefore_none, putAll_nil],
        by simp [ingest, records, hev, hid, Value.isStr]⟩
    | bool b => exact ⟨by simp [ingest, records, hev, hid, Value.isStr, rowsBefore_none, putAll_nil],
        by simp [ingest, records, hev, hid, Value.isStr]⟩
    | float64 b => exact ⟨by simp [ingest, records, hev, hid, Value.isStr, rowsBefore_none, putAll_nil],
        by simp [ingest, records, hev, hid, Value.isStr]⟩
    | slice xs => exact ⟨by simp [ingest, records, hev, hid, Value.isStr, rowsBefore_none, putAll_nil],
        by simp [ingest, records, hev, hid, Value.isStr]⟩
    | map m => exact ⟨by simp [ingest, records, hev, hid, Value.isStr, rowsBefore_none, putAll_nil],
        by simp [ingest, records, hev, hid, Value.isStr]⟩
  | nil => exact ⟨by simp [ingest, records, hev, Value.isSlice, rowsBefore_none, putAll_nil],
      by simp [ingest, records, hev, Value.isSlice]⟩
  | bool b => exact ⟨by simp [ingest, records, hev, Value.isSlice, rowsBefore_none, putAll_nil],
      by simp [ingest, records, hev, Value.isSlice]⟩
  | float64 b => exact ⟨by simp [ingest, records, hev, Value.isSlice, rowsBefore_none, putAll_nil],
      by simp [ingest, records, hev, Value.isSlice]⟩
  | str s => exact ⟨by simp [ingest, records, hev, Value.isSlice, rowsBefore_none, putAll_nil],
      by simp [ingest, records, hev, Value.isSlice]⟩
  | map m => exact ⟨by simp [ingest, records, hev, Value.isSlice, rowsBefore_none, putAll_nil],
      by simp [ingest, records, hev, Value.isSlice]⟩

/-- A payload with one of the three named defects has a record without a row. -/
theorem none_mem_records_of_defect (result : List (String × Value))
    (h : (index result "events").isSlice = false
      ∨ ∃ e ∈ (index result "events").elems,
          (e.isMap && (e.field "geometry").isSlice) = false
            ∨ ∃ g ∈ (e.field "geometry").elems, wfGeometry g = false) :
    none ∈ records result := by
  unfold records
  split
  · rename_i hcond
    simp only [Bool.and_eq_true] at hcond
    rcases h with h | ⟨e, he, h⟩
    · rw [hcond.1] at h
      exact Bool.noConfusion h
    · rw [List.mem_flatMap]
      refine ⟨e, he, ?_⟩
      unfold recordsOfEvent
      split
      · rcases h with h | ⟨g, hg, h⟩
        · rename_i hshape
          rw [hshape] at h
          exact Bool.noConfusion h
        · rw [List.mem_map]
          exact ⟨g, hg, by simp [entryRecord, h]⟩
      · exact List.mem_singleton.2 rfl
  · exact List.mem_singleton.2 rfl

theorem outcome_cases (o : Outcome) : o = Outcome.completed ∨ ∃ a, o = Outcome.panicked a := by
  cases o with
  | completed => exact Or.inl rfl
  | panicked a => exact Or.inr ⟨a, rfl⟩

/-- C9, as the code has it: a payload without the `events` array, or with an
event without its `geometry` array, or with a geometry entry without its
string `date`, makes the ingestion pass of `main` end in a failed type
assertion, at the first record in feed order that has no row: the payload
itself when `events` is no array or the top-level `title` no string, an event
that is no object or has no `geometry` array, or a geometry entry that is no
object with a string `date` or whose event has no string `title`. Exactly the
rows of the records before that record are written, in order; nothing at or
after it is written and nothing written before it is undone. -/
theorem main_aborts_at_first_unreadable {σ : Type} (dynamo : Dynamo σ)
    (result : List (String × Value)) (w : World σ)
    (h : (index result "events").isSlice = false
      ∨ ∃ e ∈ (index result "events").elems,
          (e.isMap && (e.field "geometry").isSlice) = false
            ∨ ∃ g ∈ (e.field "geometry").elems, wfGeometry g = false) :
    none ∈ records result
      ∧ ∃ a, main dynamo result w
          = (putAll dynamo (CreateTable dynamo w).1
              ((List.takeWhile Option.isSome (records result)).reduceOption),
             Outcome.panicked a) := by
  have hnone := none_mem_records_of_defect result h
  refine ⟨hnone, ?_⟩
  obtain ⟨h1, h2⟩ := ingest_records dynamo result (CreateTable dynamo w).1
  rcases outcome_cases (ingest dynamo result (CreateTable dynamo w).1).2 with hc | ⟨a, ha⟩
  · exact absurd hnone (h2.1 hc)
  · exact ⟨a, Prod.ext h1 ha⟩

theorem main_aborts_at_first_unreadable_witness :
    (∃ e ∈ (index emptyGeometryPayload "events").elems,
        (e.isMap && (e.field "geometry").isSlice) = false)
    ∧ (List.takeWhile Option.isSome (records emptyGeometryPayload)).reduceOption
      = [{ id := "EONET Events", title := "Wildfire A", date := "2020-01-02" }]
    ∧ (List.takeWhile Option.isSome (records noDatePayload)).reduceOption
      = [ { id := "EONET Events", title := "Wildfire A", date := "2020-01-02" },
          { id := "EONET Events", title := "Storm B", date := "2020-01-01" } ]
    ∧ (List.takeWhile Option.isSome (records noEventsPayload)).reduceOption = []
    ∧ (∃ a, main localDynamo emptyGeometryPayload startWorld
        = (putAll localDynamo (CreateTable localDynamo startWorld).1
            ((List.takeWhile Option.isSome (records emptyGeometryPayload)).reduceOption),
           Outcome.panicked a))
    ∧ (∃ a, main localDynamo noDatePayload startWorld
        = (putAll localDynamo (CreateTable localDynamo startWorld).1
            ((List.takeWhile Option.isSome (records noDatePayload)).reduceOption),
           Outcome.panicked a))
    ∧ (∃ a, main localDynamo noEventsPayload startWorld
        = (putAll localDynamo (CreateTable localDynamo startWorld).1
            ((List.takeWhile Option.isSome (records noEventsPayload)).reduceOption),
           Outcome.panicked a)) :=
  ⟨by decide, by decide, by decide, by decide,
   (main_aborts_at_first_unreadable localDynamo emptyGeometryPayload startWorld
      (by decide)).2,
   (main_aborts_at_first_unreadable localDynamo noDatePayload startWorld (by decide)).2,
   (main_aborts_at_first_unreadable localDynamo noEventsPayload startWorld (by decide)).2⟩

/-- C9, as the spec has it, fails: in the payload whose first event has the
number 7 as title and one geometry entry, whose second event `Wildfire A` is
well formed and whose third event has no `geometry` array, the third event is
the first record with one of the three named defects. `main` does not abort
there: it ends in the failed string assertion on the first event's title, not
in the failed array assertion on the third event's `geometry`, and has made no
`PutItem` call. With the first event's geometry empty instead, `main` does
reach the third event, after writing the row of `Wildfire A`. -/
theorem number_title_aborts_earlier :
    (index numberTitlePayload "events").isSlice = true
    ∧ (index numberTitlePayload "events").elems.map
        (fun e => ((e.isMap && (e.field "geometry").isSlice),
          (e.field "geometry").elems.all wfGeometry))
      = [(true, true), (true, true), (false, true)]
    ∧ (main localDynamo numberTitlePayload startWorld).2 = Outcome.panicked GoType.string
    ∧ (main localDynamo numberTitlePayload startWorld).1.putCalls = []
    ∧ tableItems (main localDynamo numberTitlePayload startWorld).1.store = []
    ∧ (main localDynamo emptyGeometryPayload startWorld).2
      = Outcome.panicked GoType.sliceOfInterface
    ∧ (main localDynamo emptyGeometryPayload startWorld).1.putCalls
      = [{ id := "EONET Events", title := "Wildfire A", date := "2020-01-02" }] := by
  decide

/-! ## Puts on the items of a table -/

theorem foldl_upsert_cons (ks : List KeySchemaElement) (rs : List Item) (x : Item)
    (xs : List Item) :
    rs.foldl (upsert ks) (x :: xs)
      = rs.foldl (overwrite ks) x
          :: (rs.filter (fun r => decide (primaryKey ks x ≠ primaryKey ks r))).foldl
              (upsert ks) xs := by
  induction rs generalizing x xs with
  | nil => rfl
  | cons r rest ih =>
    by_cases hk : primaryKey ks x = primaryKey ks r
    · simp only [List.foldl_cons, upsert, overwrite, hk, if_true, ih, ne_eq, not_true_eq_false,
        decide_False, List.filter_cons_of_neg, Bool.false_eq_true, not_false_eq_true]
    · simp only [List.foldl_cons, upsert, overwrite, hk, if_false, ih, ne_eq,
        not_false_eq_true, decide_True, List.filter_cons_of_pos]

theorem primaryKey_foldl_overwrite (ks : List KeySchemaElement) (rs : List Item) (x : Item) :
    primaryKey ks (rs.foldl (overwrite ks) x) = primaryKey ks x := by
  induction rs generalizing x with
  | nil => rfl
  | cons r rest ih =>
    rw [List.foldl_cons, ih]
    by_cases hk : primaryKey ks x = primaryKey ks r
    · simp [overwrite, hk]
    · simp [overwrite, hk]

/-- Either some put in `rs` hits the key of `x`, and then the outcome does not
depend on the stored item, or none does, and then the stored item stays. -/
theorem foldl_overwrite_cases (ks : List KeySchemaElement) (rs : List Item) (x : Item) :
    (∀ y, primaryKey ks y = primaryKey ks x →
        rs.foldl (overwrite ks) y = rs.foldl (overwrite ks) x)
      ∨ (∀ y, primaryKey ks y = primaryKey ks x → rs.foldl (overwrite ks) y = y) := by
  induction rs generalizing x with
  | nil => exact Or.inr (fun y _ => rfl)
  | cons r rest ih =>
    by_cases hk : primaryKey ks x = primaryKey ks r
    · left
      intro y hy
      have hy2 : primaryKey ks y = primaryKey ks r := hy.trans hk
      simp [overwrite, hk, hy2]
    · rcases ih x with h | h
      · left
        intro y hy
        have hy2 : ¬ primaryKey ks y = primaryKey ks r := by rw [hy]; exact hk
        simp only [List.foldl_cons, overwrite, hk, hy2, if_false]
        exact h y hy
      · right
        intro y hy
        have hy2 : ¬ primaryKey ks y = primaryKey ks r := by rw [hy]; exact hk
        simp only [List.foldl_cons, overwrite, hy2, if_false]
        exact h y hy

theorem foldl_overwrite_idem (ks : List KeySchemaElement) (rs : List Item) (x : Item) :
    rs.foldl (overwrite ks) (rs.foldl (overwrite ks) x) = rs.foldl (overwrite ks) x := by
  rcases foldl_overwrite_cases ks rs x with h | h
  · exact h _ (primaryKey_foldl_overwrite ks rs x)
  · exact h _ (primaryKey_foldl_overwrite ks rs x)

/-- Putting a list of items a second time changes nothing. -/
theorem foldl_upsert_idem (ks : List KeySchemaElement) (n : Nat) :
    ∀ (xs rs : List Item), xs.length + rs.length = n →
      rs.foldl (upsert ks) (rs.foldl (upsert ks) xs) = rs.foldl (upsert ks) xs := by
  induction n using Nat.strong_induction_on with
  | _ n ih =>
    intro xs rs hn
    cases xs with
    | cons x rest =>
      rw [foldl_upsert_cons ks rs x rest, foldl_upsert_cons ks rs _ _, foldl_overwrite_idem,
        primaryKey_foldl_overwrite]
      congr 1
      refine ih (rest.length
        + (rs.filter (fun r => decide (primaryKey ks x ≠ primaryKey ks r))).length) ?_ _ _ rfl
      have := List.length_filter_le (fun r => decide (primaryKey ks x ≠ primaryKey ks r)) rs
      simp only [List.length_cons] at hn
      omega
    | nil =>
      cases rs with
      | nil => rfl
      | cons r more =>
        have h1 : (r :: more).foldl (upsert ks) [] = more.foldl (upsert ks) [r] := rfl
        rw [h1, foldl_upsert_cons ks more r [], foldl_upsert_cons ks (r :: more) _ _,
          primaryKey_foldl_overwrite]
        have h2 : (r :: more).foldl (overwrite ks) (more.foldl (overwrite ks) r)
            = more.foldl (overwrite ks) r := by
          rw [List.foldl_cons]
          have h3 : overwrite ks (more.foldl (overwrite ks) r) r = r := by
            simp [overwrite, primaryKey_foldl_overwrite]
          rw [h3]
        have h4 : (r :: more).filter (fun y => decide (primaryKey ks r ≠ primaryKey ks y))
            = more.filter (fun y => decide (primaryKey ks r ≠ primaryKey ks y)) := by
          simp
        rw [h2, h4]
        congr 1
        refine ih (([] : List Item).length
          + (more.filter (fun y => decide (primaryKey ks r ≠ primaryKey ks y))).length)
          ?_ _ _ rfl
        have := List.length_filter_le
          (fun y => decide (primaryKey ks r ≠ primaryKey ks y)) more
        simp only [List.length_cons, List.length_nil] at hn ⊢
        omega

theorem mem_upsert (ks : List KeySchemaElement) (xs : List Item) (item y : Item)
    (h : y ∈ upsert ks xs item) : y ∈ xs ∨ y = item := by
  induction xs with
  | nil => simpa [upsert] using h
  | cons x rest ih =>
    by_cases hk : primaryKey ks x = primaryKey ks item
    · simp only [upsert, hk, if_true, List.mem_cons] at h
      rcases h with h | h
      · exact Or.inr h
      · exact Or.inl (List.mem_cons_of_mem _ h)
    · simp only [upsert, hk, if_false, List.mem_cons] at h
      rcases h with h | h
      · exact Or.inl (h ▸ List.mem_cons_self _ _)
      · rcases ih h with h | h
        · exact Or.inl (List.mem_cons_of_mem _ h)
        · exact Or.inr h

/-! ## The concrete store under a run of puts -/

theorem localPutItem_some (t : Table) (event : Event) :
    (localPutItem (some t) (putItemInput event)).1
      = some { t with items :=
          (if accepted t event = true then upsert t.keySchema t.items (itemOf event)
           else t.items) } := by
  simp only [localPutItem, putItemInput, accepted]
  by_cases hn : (t.name != TABLE_NAME) = true
  · simp [hn]
  · by_cases hk : hasKey t.keySchema (itemOf event) = true
    · simp [hn, hk]
    · simp [hn, hk]

theorem foldl_cond_eq_filter {α β : Type} (p : β → Bool) (f : α → β → α) (rows : List β)
    (init : α) :
    rows.foldl (fun acc b => if p b = true then f acc b else acc) init
      = (rows.filter p).foldl f init := by
  induction rows generalizing init with
  | nil => rfl
  | cons b rest ih =>
    by_cases hp : p b = true
    · simp [hp, ih]
    · simp [hp, ih]

theorem storeAfterPuts_none (rows : List Event) :
    storeAfterPuts localDynamo none rows = none := by
  induction rows with
  | nil => rfl
  | cons event rest ih => simpa [storeAfterPuts, localDynamo, localPutItem] using ih

/-- The table after a run of puts: the accepted items are put in turn, the
others leave the table as it is. -/
theorem storeAfterPuts_some (t : Table) (rows : List Event) :
    storeAfterPuts localDynamo (some t) rows
      = some { t with items :=
          (((rows.filter (accepted t)).map itemOf).foldl (upsert t.keySchema) t.items) } := by
  have key : ∀ (rs : List Event) (its : List Item),
      storeAfterPuts localDynamo (some { t with items := its }) rs
        = some { t with items :=
            (rs.foldl (fun acc e =>
              if accepted t e = true then upsert t.keySchema acc (itemOf e) else acc) its) } := by
    intro rs
    induction rs with
    | nil => intro its; rfl
    | cons e rest ih =>
      intro its
      have hstep : storeAfterPuts localDynamo (some { t with items := its }) (e :: rest)
          = storeAfterPuts localDynamo
              (localPutItem (some { t with items := its }) (putItemInput e)).1 rest := rfl
      rw [hstep, localPutItem_some]
      exact ih _
  have h := key rows t.items
  rw [foldl_cond_eq_filter (accepted t) (fun acc e => upsert t.keySchema acc (itemOf e))] at h
  rw [List.foldl_map]
  exact h

/-- A second run of the same puts leaves the concrete store as the first run
left it. -/
theorem storeAfterPuts_idem (db : Option Table) (rows : List Event) :
    storeAfterPuts localDynamo (storeAfterPuts localDynamo db rows) rows
      = storeAfterPuts localDynamo db rows := by
  cases db with
  | none => simp [storeAfterPuts_none]
  | some t =>
    rw [storeAfterPuts_some t rows, storeAfterPuts_some]
    have hacc : accepted { t with items :=
        (((rows.filter (accepted t)).map itemOf).foldl (upsert t.keySchema) t.items) }
          = accepted t := rfl
    simp only [hacc]
    rw [foldl_upsert_idem t.keySchema _ _ _ rfl]

/-! ## Re-ingestion -/

/-- C8: re-ingestion is idempotent on the table. For every well-formed feed
payload and every initial state of the store (no table, or a table with any
items, keyed by its declared primary key, a put overwriting the item of the
same key), running the ingestion loop a second time with the same payload
leaves the store as the first run left it; the row count does not grow. -/
theorem ingest_twice (db : Option Table) (log : List LogLine) (calls : List Event)
    (result : List (String × Value)) (h : wfPayload result = true) :
    (ingest localDynamo result
        (ingest localDynamo result { store := db, log := log, putCalls := calls }).1).1.store
      = (ingest localDynamo result { store := db, log := log, putCalls := calls }).1.store
    ∧ (tableItems (ingest localDynamo result
        (ingest localDynamo result
          { store := db, log := log, putCalls := calls }).1).1.store).length
      = (tableItems (ingest localDynamo result
          { store := db, log := log, putCalls := calls }).1.store).length := by
  have hstore : (ingest localDynamo result
        (ingest localDynamo result { store := db, log := log, putCalls := calls }).1).1.store
      = (ingest localDynamo result { store := db, log := log, putCalls := calls }).1.store := by
    rw [ingest_wf localDynamo result _ h, ingest_wf localDynamo result _ h, putAll_store,
      putAll_store]
    exact storeAfterPuts_idem db (flatten result)
  exact ⟨hstore, by rw [hstore]⟩

theorem ingest_twice_witness :
    wfPayload scenarioPayload = true
      ∧ (ingest localDynamo scenarioPayload
          (ingest localDynamo scenarioPayload
            (worldOf [[("id", "EONET Events"), ("title", "Storm B"), ("date", "2019-12-31")],
                      [("id", "EONET Events"), ("title", "Flood C"), ("date", "2020-01-05")]])
          ).1).1.store
        = some (eventsTable
            [[("id", "EONET Events"), ("title", "Storm B"), ("date", "2020-01-03")],
             [("id", "EONET Events"), ("title", "Flood C"), ("date", "2020-01-05")],
             [("id", "EONET Events"), ("title", "Wildfire A"), ("date", "2020-01-02")]]) :=
  ⟨by decide,
   (ingest_twice
      (some (eventsTable
        [[("id", "EONET Events"), ("title", "Storm B"), ("date", "2019-12-31")],
         [("id", "EONET Events"), ("title", "Flood C"), ("date", "2020-01-05")]]))
      [] [] scenarioPayload (by decide)).1.trans (by decide)⟩

/-! ## The queries of the handlers on the concrete store -/

theorem localQuery_title (items : List Item) :
    localQuery (some (eventsTable items)) titleQueryInput
      = ({ items := (groupRows createTableInput.keySchema items).insertionSort
            (rangeLE createTableInput.keySchema) }, none) := rfl

theorem localQuery_date (items : List Item) :
    localQuery (some (eventsTable items)) dateQueryInput
      = ({ items := (groupRows dateIndexSchema items).insertionSort
            (rangeLE dateIndexSchema) }, none) := rfl

theorem sorted_range_map (ks : List KeySchemaElement) (rows : List Item) (attr : String)
    (hattr : ∀ item, rangeValue ks item = indexString item attr)
    (h : List.Sorted (rangeLE ks) rows) :
    List.Sorted (fun a b : String => a ≤ b) (rows.map (fun row => indexString row attr)) := by
  unfold List.Sorted at h ⊢
  rw [List.pairwise_map]
  refine h.imp ?_
  intro a b hab
  rw [String.le_iff_toList_le, ← hattr a, ← hattr b]
  exact hab

theorem groupRows_table (items : List Item) :
    groupRows createTableInput.keySchema items
      = items.filter (fun item =>
          item.lookup "id" == some "EONET Events" && (item.lookup "title").isSome) := by
  unfold groupRows
  refine List.filter_congr (fun item _ => ?_)
  have hk : hasKey createTableInput.keySchema item
      = ((item.lookup "id").isSome && ((item.lookup "title").isSome && true)) := rfl
  rw [hk]
  cases hid : item.lookup "id" <;> cases item.lookup "title" <;> simp

theorem groupRows_date (items : List Item) :
    groupRows dateIndexSchema items
      = items.filter (fun item =>
          item.lookup "id" == some "EONET Events" && (item.lookup "date").isSome) := by
  unfold groupRows
  refine List.filter_congr (fun item _ => ?_)
  have hk : hasKey dateIndexSchema item
      = ((item.lookup "id").isSome && ((item.lookup "date").isSome && true)) := rfl
  rw [hk]
  cases hid : item.lookup "id" <;> cases item.lookup "date" <;> simp

/-- C5: for every state of the events table, `sortbytitle` writes its header
line and then, for each row its query returns and in the order returned, the
line `title :- <title> \t date :-<date>` with that row's title and date; the
returned rows are the rows of the table under the id `EONET Events`, each
once, and their titles are in non-decreasing lexicographic order. Likewise
for `sortbydate`, whose rows are in non-decreasing lexicographic order of the
date string. Each handler issues a forward query with the key condition
`id = :E`, `:E` bound to `EONET Events`, `sortbytitle` on the table itself and
`sortbydate` on the secondary index named `date`. -/
theorem handlers_ascending (items : List Item) (log : List LogLine) (calls : List Event)
    (w : ResponseWriter) :
    (sortbytitle localDynamo
        { store := some (eventsTable items), log := log, putCalls := calls } w).2.body
      = w.body ++ "Events ordered in Ascending by title name \n"
          :: (localQuery (some (eventsTable items)) titleQueryInput).1.items.map (fun row =>
              "title :- " ++ indexString row "title" ++ " \t date :-"
                ++ indexString row "date" ++ "\n")
    ∧ List.Sorted (fun a b : String => a ≤ b)
        ((localQuery (some (eventsTable items)) titleQueryInput).1.items.map
          (fun row => indexString row "title"))
    ∧ List.Perm (localQuery (some (eventsTable items)) titleQueryInput).1.items
        (items.filter (fun item =>
          item.lookup "id" == some "EONET Events" && (item.lookup "title").isSome))
    ∧ (sortbydate localDynamo
        { store := some (eventsTable items), log := log, putCalls := calls } w).2.body
      = w.body ++ "Events ordered in Ascending by date time \n"
          :: (localQuery (some (eventsTable items)) dateQueryInput).1.items.map (fun row =>
              "title :- " ++ indexString row "title" ++ " \t date :-"
                ++ indexString row "date" ++ "\n")
    ∧ List.Sorted (fun a b : String => a ≤ b)
        ((localQuery (some (eventsTable items)) dateQueryInput).1.items.map
          (fun row => indexString row "date"))
    ∧ List.Perm (localQuery (some (eventsTable items)) dateQueryInput).1.items
        (items.filter (fun item =>
          item.lookup "id" == some "EONET Events" && (item.lookup "date").isSome))
    ∧ titleQueryInput.keyConditionExpression = { attributeName := "id", placeholder := ":E" }
    ∧ titleQueryInput.expressionAttributeValues.lookup ":E" = some "EONET Events"
    ∧ titleQueryInput.scanIndexForward = true ∧ titleQueryInput.indexName = none
    ∧ dateQueryInput.keyConditionExpression = { attributeName := "id", placeholder := ":E" }
    ∧ dateQueryInput.expressionAttributeValues.lookup ":E" = some "EONET Events"
    ∧ dateQueryInput.scanIndexForward = true ∧ dateQueryInput.indexName = some "date" := by
  refine ⟨renderQuery_body localDynamo titleQueryInput titleHeaderLine _ w, ?_, ?_,
    renderQuery_body localDynamo dateQueryInput dateHeaderLine _ w, ?_, ?_,
    rfl, rfl, rfl, rfl, rfl, rfl, rfl, rfl⟩
  · rw [localQuery_title]
    exact sorted_range_map createTableInput.keySchema _ "title" (fun _ => rfl)
      (List.sorted_insertionSort _ _)
  · rw [localQuery_title, ← groupRows_table]
    exact List.perm_insertionSort _ _
  · rw [localQuery_date]
    exact sorted_range_map dateIndexSchema _ "date" (fun _ => rfl)
      (List.sorted_insertionSort _ _)
  · rw [localQuery_date, ← groupRows_date]
    exact List.perm_insertionSort _ _

/-! ## What ingestion leaves in the table -/

/-- Whatever the payload, the inner loop amounts to a run of `PutItem` on rows
under the given id. -/
theorem geoLoop_rows {σ : Type} (dynamo : Dynamo σ) (id : String) (title : Value)
    (geo : List Value) (w : World σ) :
    ∃ rows, (geoLoop dynamo id title geo w).1 = putAll dynamo w rows
      ∧ ∀ row ∈ rows, row.id = id := by
  induction geo generalizing w with
  | nil => exact ⟨[], rfl, by simp⟩
  | cons g rest ih =>
    cases g with
    | map k =>
      cases title with
      | str t =>
        cases hd : index k "date" with
        | str d =>
          obtain ⟨rows, hrows, hid⟩ :=
            ih (PutItem dynamo w { id := id, title := t, date := d }).1
          refine ⟨{ id := id, title := t, date := d } :: rows, ?_, ?_⟩
          · simp only [geoLoop, hd, putAll_cons]
            exact hrows
          · intro row hrow
            rcases List.mem_cons.1 hrow with rfl | hrow
            · rfl
            · exact hid row hrow
        | nil => exact ⟨[], by simp only [geoLoop, hd]; rfl, by simp⟩
        | bool b => exact ⟨[], by simp only [geoLoop, hd]; rfl, by simp⟩
        | float64 b => exact ⟨[], by simp only [geoLoop, hd]; rfl, by simp⟩
        | slice xs => exact ⟨[], by simp only [geoLoop, hd]; rfl, by simp⟩
        | map m => exact ⟨[], by simp only [geoLoop, hd]; rfl, by simp⟩
      | nil => exact ⟨[], by simp only [geoLoop]; rfl, by simp⟩
      | bool b => exact ⟨[], by simp only [geoLoop]; rfl, by simp⟩
      | float64 b => exact ⟨[], by simp only [geoLoop]; rfl, by simp⟩
      | slice xs => exact ⟨[], by simp only [geoLoop]; rfl, by simp⟩
      | map m => exact ⟨[], by simp only [geoLoop]; rfl, by simp⟩
    | nil => exact ⟨[], by simp only [geoLoop]; rfl, by simp⟩
    | bool b => exact ⟨[], by simp only [geoLoop]; rfl, by simp⟩
    | float64 b => exact ⟨[], by simp only [geoLoop]; rfl, by simp⟩
    | str s => exact ⟨[], by simp only [geoLoop]; rfl, by simp⟩
    | slice xs => exact ⟨[], by simp only [geoLoop]; rfl, by simp⟩

theorem eventLoop_rows {σ : Type} (dynamo : Dynamo σ) (id : String) (events : List Value)
    (w : World σ) :
    ∃ rows, (eventLoop dynamo id events w).1 = putAll dynamo w rows
      ∧ ∀ row ∈ rows, row.id = id := by
  induction events generalizing w with
  | nil => exact ⟨[], rfl, by simp⟩
  | cons e rest ih =>
    cases e with
    | map v =>
      cases hgeo : index v "geometry" with
      | slice geo =>
        obtain ⟨rows1, h1, hid1⟩ := geoLoop_rows dynamo id (index v "title") geo w
        cases hloop : geoLoop dynamo id (index v "title") geo w with
        | mk w1 o =>
          rw [hloop] at h1
          simp only at h1
          cases o with
          | completed =>
            obtain ⟨rows2, h2, hid2⟩ := ih w1
            refine ⟨rows1 ++ rows2, ?_, ?_⟩
            · simp only [eventLoop, hgeo, hloop, putAll_append]
              rw [h2, h1]
            · intro row hrow
              rcases List.mem_append.1 hrow with hrow | hrow
              · exact hid1 row hrow
              · exact hid2 row hrow
          | panicked a =>
            refine ⟨rows1, ?_, hid1⟩
            simp only [eventLoop, hgeo, hloop]
            exact h1
      | nil => exact ⟨[], by simp only [eventLoop, hgeo]; rfl, by simp⟩
      | bool b => exact ⟨[], by simp only [eventLoop, hgeo]; rfl, by simp⟩
      | float64 b => exact ⟨[], by simp only [eventLoop, hgeo]; rfl, by simp⟩
      | str s => exact ⟨[], by simp only [eventLoop, hgeo]; rfl, by simp⟩
      | map m => exact ⟨[], by simp only [eventLoop, hgeo]; rfl, by simp⟩
    | nil => exact ⟨[], by simp only [eventLoop]; rfl, by simp⟩
    | bool b => exact ⟨[], by simp only [eventLoop]; rfl, by simp⟩
    | float64 b => exact ⟨[], by simp only [eventLoop]; rfl, by simp⟩
    | str s => exact ⟨[], by simp only [eventLoop]; rfl, by simp⟩
    | slice xs => exact ⟨[], by simp only [eventLoop]; rfl, by simp⟩

/-- Whatever the payload, the ingestion pass amounts to a run of `PutItem` on
rows whose id is the payload's top-level title. -/
theorem ingest_rows {σ : Type} (dynamo : Dynamo σ) (result : List (String × Value))
    (id : String) (hid : index result "title" = Value.str id) (w : World σ) :
    ∃ rows, (ingest dynamo result w).1 = putAll dynamo w rows
      ∧ ∀ row ∈ rows, row.id = id := by
  cases hev : index result "events" with
  | slice events =>
    simp only [ingest, hev, hid]
    exact eventLoop_rows dynamo id events w
  | nil => exact ⟨[], by simp only [ingest, hev]; rfl, by simp⟩
  | bool b => exact ⟨[], by simp only [ingest, hev]; rfl, by simp⟩
  | float64 b => exact ⟨[], by simp only [ingest, hev]; rfl, by simp⟩
  | str s => exact ⟨[], by simp only [ingest, hev]; rfl, by simp⟩
  | map m => exact ⟨[], by simp only [ingest, hev]; rfl, by simp⟩

theorem mem_foldl_upsert (ks : List KeySchemaElement) (puts : List Item) (xs : List Item)
    (y : Item) (h : y ∈ puts.foldl (upsert ks) xs) : y ∈ xs ∨ y ∈ puts := by
  induction puts generalizing xs with
  | nil => exact Or.inl h
  | cons p rest ih =>
    rcases ih _ h with h1 | h1
    · rcases mem_upsert ks xs p y h1 with h2 | h2
      · exact Or.inl h2
      · exact Or.inr (h2 ▸ List.mem_cons_self _ _)
    · exact Or.inr (List.mem_cons_of_mem _ h1)

theorem hasKey_itemOf_table (event : Event) :
    hasKey createTableInput.keySchema (itemOf event) = true := rfl

theorem hasKey_itemOf_date (event : Event) :
    hasKey dateIndexSchema (itemOf event) = true := rfl

/-- An item that `PutItem` built under the id `EONET Events` and that the table
holds is among the rows either handler's query returns. -/
theorem itemOf_mem_queries (items : List Item) (event : Event)
    (hid : event.id = "EONET Events") (hmem : itemOf event ∈ items) :
    itemOf event ∈ (localQuery (some (eventsTable items)) titleQueryInput).1.items
      ∧ itemOf event ∈ (localQuery (some (eventsTable items)) dateQueryInput).1.items := by
  have hlook : ((itemOf event).lookup "id" == some "EONET Events") = true := by
    have : (itemOf event).lookup "id" = some event.id := rfl
    rw [this, hid]
    simp
  rw [localQuery_title, localQuery_date]
  constructor
  · refine (List.perm_insertionSort _ _).mem_iff.2 ?_
    simp only [groupRows, List.mem_filter, Bool.and_eq_true]
    exact ⟨hmem, hasKey_itemOf_table event, hlook⟩
  · refine (List.perm_insertionSort _ _).mem_iff.2 ?_
    simp only [groupRows, List.mem_filter, Bool.and_eq_true]
    exact ⟨hmem, hasKey_itemOf_date event, hlook⟩

/-- C3, as the code has it: for every feed payload whose top-level title is the
string `EONET Events`, after `main` has run on an empty store every row the
table holds is returned by the query of `sortbytitle` and by the query of
`sortbydate`. -/
theorem rows_returned_by_queries (result : List (String × Value))
    (h : index result "title" = Value.str "EONET Events") :
    ∀ item ∈ tableItems (main localDynamo result startWorld).1.store,
      item ∈ (localDynamo.query (main localDynamo result startWorld).1.store
                titleQueryInput).1.items
        ∧ item ∈ (localDynamo.query (main localDynamo result startWorld).1.store
                dateQueryInput).1.items := by
  obtain ⟨rows, hrows, hid⟩ :=
    ingest_rows localDynamo result "EONET Events" h (CreateTable localDynamo startWorld).1
  have hstore : (main localDynamo result startWorld).1.store
      = some (eventsTable
          (((rows.filter (accepted (eventsTable []))).map itemOf).foldl
            (upsert createTableInput.keySchema) [])) := by
    simp only [main, hrows, putAll_store]
    exact storeAfterPuts_some (eventsTable []) rows
  rw [hstore]
  intro item hitem
  simp only [tableItems, eventsTable] at hitem
  rcases mem_foldl_upsert _ _ _ _ hitem with hnil | hput
  · simp at hnil
  · obtain ⟨event, hevent, rfl⟩ := List.mem_map.1 hput
    exact itemOf_mem_queries _ event (hid event (List.mem_filter.1 hevent).1) hitem

theorem rows_returned_by_queries_witness :
    index scenarioPayload "title" = Value.str "EONET Events"
      ∧ [("id", "EONET Events"), ("title", "Storm B"), ("date", "2020-01-03")]
          ∈ tableItems (main localDynamo scenarioPayload startWorld).1.store
      ∧ [("id", "EONET Events"), ("title", "Storm B"), ("date", "2020-01-03")]
          ∈ (localDynamo.query (main localDynamo scenarioPayload startWorld).1.store
              titleQueryInput).1.items
      ∧ [("id", "EONET Events"), ("title", "Storm B"), ("date", "2020-01-03")]
          ∈ (localDynamo.query (main localDynamo scenarioPayload startWorld).1.store
              dateQueryInput).1.items :=
  ⟨rfl, by decide,
   rows_returned_by_queries scenarioPayload rfl
     [("id", "EONET Events"), ("title", "Storm B"), ("date", "2020-01-03")] (by decide)⟩

/-- C3, as the spec has it, fails: for the payload titled `Other Feed` with one
event seen once, the table holds a row after `main` has run on an empty store,
and neither the query of `sortbytitle` nor that of `sortbydate` returns it. -/
theorem other_title_rows_not_returned :
    tableItems (main localDynamo otherTitlePayload startWorld).1.store
      = [[("id", "Other Feed"), ("title", "Wildfire A"), ("date", "2020-01-02")]]
    ∧ (localDynamo.query (main localDynamo otherTitlePayload startWorld).1.store
        titleQueryInput).1.items = []
    ∧ (localDynamo.query (main localDynamo otherTitlePayload startWorld).1.store
        dateQueryInput).1.items = []
    ∧ ¬ ∀ item ∈ tableItems (main localDynamo otherTitlePayload startWorld).1.store,
        item ∈ (localDynamo.query (main localDynamo otherTitlePayload startWorld).1.store
                  titleQueryInput).1.items
          ∧ item ∈ (localDynamo.query (main localDynamo otherTitlePayload startWorld).1.store
                  dateQueryInput).1.items := by
  decide

/-! ## The scenario of the spec -/

/-- C4, on the code: ingesting the scenario payload into an empty store makes
three `PutItem` calls and leaves two rows in the table, the second `Storm B`
row having replaced the first under the key (id, title); `sortbydate` then
writes its header line and two data lines, of 2020-01-02 and 2020-01-03, and
`sortbytitle` its header line, one `Storm B` line and the `Wildfire A` line. -/
theorem scenario_leaves_two_rows :
    (main localDynamo scenarioPayload startWorld).2 = Outcome.completed
    ∧ (main localDynamo scenarioPayload startWorld).1.putCalls.length = 3
    ∧ (main localDynamo scenarioPayload startWorld).1.log = []
    ∧ tableItems (main localDynamo scenarioPayload startWorld).1.store
      = [ [("id", "EONET Events"), ("title", "Wildfire A"), ("date", "2020-01-02")],
          [("id", "EONET Events"), ("title", "Storm B"), ("date", "2020-01-03")] ]
    ∧ (sortbydate localDynamo (main localDynamo scenarioPayload startWorld).1
        ResponseWriter.fresh).2.body
      = [ "Events ordered in Ascending by date time \n",
          "title :- Wildfire A \t date :-2020-01-02\n",
          "title :- Storm B \t date :-2020-01-03\n" ]
    ∧ (sortbytitle localDynamo (main localDynamo scenarioPayload startWorld).1
        ResponseWriter.fresh).2.body
      = [ "Events ordered in Ascending by title name \n",
          "title :- Storm B \t date :-2020-01-03\n",
          "title :- Wildfire A \t date :-2020-01-02\n" ] := by
  decide

end Wakelet
